import Mathlib

/-!
# Verification of the RustRayTrace core against its specification

This file shallowly embeds the core of the `RustRayTrace` renderer
(`src/books/the_next_week/{interval,aabb,vec3,hittable_list,bvh,quad,sphere}.rs`
and `src/books/the_rest_of_your_life/{camera,material,pdf,hittable,sphere}.rs`)
in Lean and proves or refutes the specification's claims about it.

Modelling conventions:
* `f64` arithmetic is modelled by exact rational arithmetic `ℚ`.  Where the
  code relies on IEEE special values, two dedicated carrier types are used:
  `XQ` (rationals extended with `+∞`/`-∞`, used for interval bounds, where the
  code stores `f64::INFINITY` in live data such as `Interval::EMPTY` and the
  `[0.001, ∞)` ray window) and `FV` (`XQ` plus `NaN`, used inside the AABB slab
  test, whose `1.0 / direction` computation produces infinities and NaNs that
  the surrounding comparisons are designed around).  IEEE comparison semantics
  (every comparison with NaN is false) are modelled exactly; we model the
  single rational `0` as IEEE `+0.0` (so `1/0 = +∞`).
* Transcendental operations (`sqrt`, trig) have no exact rational counterpart;
  `qSqrt` is exact on perfect squares (all concrete inputs used in this file)
  and an integer-square-root approximation elsewhere, and the trig stand-ins
  are fixed computable functions.  No claim proved here depends on the
  approximated values.
* `Arc<dyn Material>` references in the geometry structures are modelled as
  opaque `Nat` identifiers (`the_next_week` part) — the geometric claims never
  look inside a material.  The integrator part models the `MaterialObject`
  enum concretely.
-/

set_option maxRecDepth 8000

/- The Batteries rational-number operations are `@[irreducible]`, which stops
`decide` from evaluating concrete rational arithmetic; restore the default
reducibility so the concrete witnesses and counterexamples below evaluate. -/
set_option allowUnsafeReducibility true
attribute [semireducible] Rat.mul Rat.add Rat.sub Rat.inv Rat.ofScientific

namespace RayTrace

/-- Rationals extended with `+∞` and `-∞`; models the non-NaN `f64` values
that occur as `Interval` bounds (`Interval::EMPTY` is `(+∞, -∞)` and the ray
windows use `f64::INFINITY`). -/
inductive XQ where
  | ninf : XQ
  | fin (q : ℚ) : XQ
  | inf : XQ
deriving DecidableEq

namespace XQ

/-- Boolean `<=` on extended rationals (IEEE order of the non-NaN floats). -/
def ble : XQ → XQ → Bool
  | ninf, _ => true
  | fin a, fin b => decide (a ≤ b)
  | fin _, inf => true
  | inf, inf => true
  | _, _ => false

/-- Boolean `<` on extended rationals. -/
def blt : XQ → XQ → Bool
  | ninf, ninf => false
  | ninf, _ => true
  | fin a, fin b => decide (a < b)
  | fin _, inf => true
  | _, _ => false

instance : LE XQ := ⟨fun a b => ble a b = true⟩
instance : LT XQ := ⟨fun a b => blt a b = true⟩

theorem le_def (a b : XQ) : (a ≤ b) = (ble a b = true) := rfl

theorem lt_def (a b : XQ) : (a < b) = (blt a b = true) := rfl

instance (a b : XQ) : Decidable (a ≤ b) :=
  inferInstanceAs (Decidable (ble a b = true))

instance (a b : XQ) : Decidable (a < b) :=
  inferInstanceAs (Decidable (blt a b = true))

instance : LinearOrder XQ where
  le_refl a := by cases a <;> simp [le_def, ble]
  le_trans a b c hab hbc := by
    cases a <;> cases b <;> cases c <;>
      simp only [le_def, ble, decide_eq_true_eq] at * <;>
      first
      | rfl
      | trivial
      | exact le_trans hab hbc
  le_antisymm a b hab hba := by
    cases a <;> cases b <;>
      simp only [le_def, ble, decide_eq_true_eq] at * <;>
      first
      | rfl
      | trivial
      | exact congrArg XQ.fin (le_antisymm hab hba)
  le_total a b := by
    cases a <;> cases b <;>
      simp only [le_def, ble, decide_eq_true_eq] <;>
      first
      | exact Or.inl trivial
      | exact Or.inr trivial
      | exact le_total _ _
  lt_iff_le_not_le a b := by
    cases a <;> cases b <;>
      simp only [le_def, lt_def, ble, blt, decide_eq_true_eq] <;>
      first
      | exact lt_iff_le_not_le
      | simp
  decidableLE a b := inferInstanceAs (Decidable (ble a b = true))
  decidableEq := inferInstance

/-- Whether the value is finite (models `f64::is_finite` on non-NaN values). -/
def isFinite : XQ → Bool
  | fin _ => true
  | _ => false

/-- Negation (`-x`). -/
def neg : XQ → XQ
  | ninf => inf
  | fin q => fin (-q)
  | inf => ninf

/-- Addition; the NaN-producing combination `+∞ + -∞` is mapped to `fin 0`
(it is unreachable on the modelled code paths). -/
def add : XQ → XQ → XQ
  | fin a, fin b => fin (a + b)
  | inf, ninf => fin 0
  | ninf, inf => fin 0
  | inf, _ => inf
  | _, inf => inf
  | ninf, _ => ninf
  | _, ninf => ninf

/-- Subtraction, as `a + (-b)`. -/
def sub (a b : XQ) : XQ := add a (neg b)

/-- Multiplication with IEEE sign conventions; NaN-producing combinations
(`0 × ±∞`) are mapped to `fin 0` (unreachable on the modelled code paths). -/
def mul : XQ → XQ → XQ
  | fin a, fin b => fin (a * b)
  | inf, inf => inf
  | inf, ninf => ninf
  | ninf, inf => ninf
  | ninf, ninf => inf
  | inf, fin q => if 0 < q then inf else if q < 0 then ninf else fin 0
  | fin q, inf => if 0 < q then inf else if q < 0 then ninf else fin 0
  | ninf, fin q => if 0 < q then ninf else if q < 0 then inf else fin 0
  | fin q, ninf => if 0 < q then ninf else if q < 0 then inf else fin 0

/-- Division with IEEE conventions on the live combinations; NaN-producing
combinations are mapped to `fin 0` (unreachable on the modelled code paths). -/
def div : XQ → XQ → XQ
  | fin a, fin b =>
      if b = 0 then (if 0 < a then inf else if a < 0 then ninf else fin 0)
      else fin (a / b)
  | inf, fin b => if b < 0 then ninf else inf
  | ninf, fin b => if b < 0 then inf else ninf
  | fin _, inf => fin 0
  | fin _, ninf => fin 0
  | _, _ => fin 0

/-- Absolute value. -/
def abs : XQ → XQ
  | ninf => inf
  | fin q => fin |q|
  | inf => inf

/-- Models Rust's saturating `as usize` cast of an `f64` (truncation toward
zero; negative values and `-∞` to `0`, `+∞` to `usize::MAX`). -/
def toUsize : XQ → Nat
  | ninf => 0
  | fin q => if q ≤ 0 then 0 else q.floor.toNat
  | inf => 2 ^ 64 - 1

end XQ

/-- Float values inside the AABB slab test: `XQ` plus NaN.  `t0`/`t1` there
are products of a possibly infinite `1/direction` with a possibly zero slab
offset, so NaN genuinely arises and the comparisons around it matter. -/
inductive FV where
  | nan : FV
  | ninf : FV
  | fin (q : ℚ) : FV
  | inf : FV
deriving DecidableEq

namespace FV

/-- IEEE `<`: any comparison involving NaN is false. -/
def blt : FV → FV → Bool
  | nan, _ => false
  | _, nan => false
  | ninf, ninf => false
  | ninf, _ => true
  | fin a, fin b => decide (a < b)
  | fin _, inf => true
  | _, _ => false

/-- IEEE subtraction (`∞ - ∞ = NaN`). -/
def sub : FV → FV → FV
  | nan, _ => nan
  | _, nan => nan
  | inf, inf => nan
  | ninf, ninf => nan
  | inf, _ => inf
  | ninf, _ => ninf
  | fin _, inf => ninf
  | fin _, ninf => inf
  | fin a, fin b => fin (a - b)

/-- IEEE multiplication (`0 × ∞ = NaN`). -/
def mul : FV → FV → FV
  | nan, _ => nan
  | _, nan => nan
  | fin a, fin b => fin (a * b)
  | inf, inf => inf
  | inf, ninf => ninf
  | ninf, inf => ninf
  | ninf, ninf => inf
  | inf, fin q => if 0 < q then inf else if q < 0 then ninf else nan
  | fin q, inf => if 0 < q then inf else if q < 0 then ninf else nan
  | ninf, fin q => if 0 < q then ninf else if q < 0 then inf else nan
  | fin q, ninf => if 0 < q then ninf else if q < 0 then inf else nan

/-- Models `1.0 / d` for a finite `d` (`1/+0.0 = +∞`; we model the single
rational zero as IEEE `+0.0`). -/
def inv (d : ℚ) : FV := if d = 0 then inf else fin (1 / d)

/-- Conversion back to `XQ`; NaN maps to `fin 0` — in the slab test a value is
only ever stored into the window after passing a `<` comparison, which NaN
never does, so the NaN case is unreachable there. -/
def toXQ : FV → XQ
  | nan => XQ.fin 0
  | ninf => XQ.ninf
  | fin q => XQ.fin q
  | inf => XQ.inf

end FV

/-- Embedding of `XQ` into `FV`. -/
def XQ.toFV : XQ → FV
  | XQ.ninf => FV.ninf
  | XQ.fin q => FV.fin q
  | XQ.inf => FV.inf

/-- Integer square root by bitwise binary search from the high bit down
(structurally recursive on the bit index so that the kernel can evaluate it;
only applied to concrete values below `2^64` here). -/
def natSqrtGo (n : Nat) : Nat → Nat → Nat
  | 0, acc => acc
  | fuel + 1, acc =>
    let cand := acc + 2 ^ fuel
    if cand * cand ≤ n then natSqrtGo n fuel cand else natSqrtGo n fuel acc

/-- Integer square root (largest `k` with `k*k ≤ n`, for `n < 2^64`). -/
def natSqrt (n : Nat) : Nat := natSqrtGo n 32 0

/-- Models `f64::sqrt` on nonnegative rationals: exact whenever numerator and
denominator are perfect squares (true of every concrete value this file
evaluates it on), an integer-square-root approximation otherwise.  No theorem
below depends on the approximated values. -/
def qSqrt (q : ℚ) : ℚ :=
  if q < 0 then 0
  else (natSqrt q.num.toNat : ℚ) / (natSqrt q.den : ℚ)

/-- Vector of three `f64` components (`vec3.rs`, `struct Vec3 { e: [f64; 3] }`,
also used as `Point3` and `Color`). -/
structure Vec3 where
  x : ℚ
  y : ℚ
  z : ℚ
deriving DecidableEq

namespace Vec3

/-- Constructor `Vec3::new`. -/
def new (e0 e1 e2 : ℚ) : Vec3 := ⟨e0, e1, e2⟩

/-- Indexing `v.e[i]` (`impl Index<usize> for Vec3`); indices `≥ 3` panic in
Rust and are unreachable here (only axes 0, 1, 2 are used). -/
def get : Vec3 → Nat → ℚ
  | v, 0 => v.x
  | v, 1 => v.y
  | v, _ => v.z

instance : Add Vec3 := ⟨fun u v => ⟨u.x + v.x, u.y + v.y, u.z + v.z⟩⟩
instance : Sub Vec3 := ⟨fun u v => ⟨u.x - v.x, u.y - v.y, u.z - v.z⟩⟩
instance : Neg Vec3 := ⟨fun v => ⟨-v.x, -v.y, -v.z⟩⟩
instance : Mul Vec3 := ⟨fun u v => ⟨u.x * v.x, u.y * v.y, u.z * v.z⟩⟩
instance : HMul ℚ Vec3 Vec3 := ⟨fun a v => ⟨a * v.x, a * v.y, a * v.z⟩⟩
instance : HMul Vec3 ℚ Vec3 := ⟨fun v a => a * v⟩

/-- Division `v / rhs`, defined in the source as `(1.0 / rhs) * self`. -/
instance : HDiv Vec3 ℚ Vec3 := ⟨fun v a => (1 / a) * v⟩

/-- Squared length (`length_squared`). -/
def length_squared (v : Vec3) : ℚ := v.x * v.x + v.y * v.y + v.z * v.z

/-- Length (`length`), via the modelled square root. -/
def length (v : Vec3) : ℚ := qSqrt v.length_squared

/-- Test for a near-zero vector (`near_zero`). -/
def near_zero (v : Vec3) : Bool :=
  decide (|v.x| < 1 / 10 ^ 8) && decide (|v.y| < 1 / 10 ^ 8) &&
    decide (|v.z| < 1 / 10 ^ 8)

end Vec3

/-- Dot product (`dot`). -/
def dot (u v : Vec3) : ℚ := u.x * v.x + u.y * v.y + u.z * v.z

/-- Cross product (`cross`). -/
def cross (u v : Vec3) : Vec3 :=
  ⟨u.y * v.z - u.z * v.y, u.z * v.x - u.x * v.z, u.x * v.y - u.y * v.x⟩

/-- Normalization (`unit_vector`), `v / v.length()`. -/
def unit_vector (v : Vec3) : Vec3 := v / v.length

/-- Mirror reflection (`reflect`): `v - 2*dot(v,n)*n`. -/
def reflect (v n : Vec3) : Vec3 := v - (2 * dot v n) * n

/-- Snell refraction (`refract`). -/
def refract (uv n : Vec3) (etai_over_etat : ℚ) : Vec3 :=
  let cos_theta := min (-(dot uv n)) 1
  let r_out_perp := etai_over_etat * (uv + cos_theta * n)
  let r_out_parallel := (-(qSqrt |1 - r_out_perp.length_squared|)) * n
  r_out_perp + r_out_parallel

/-- Point alias (`Point3`). -/
abbrev Point3 := Vec3

/-- Color alias (`Color`). -/
abbrev Color := Vec3

/-- Modelled from the spec: `ray.rs` is not present under `src/`; the spec
(§1, §3) assumes the ray as a given low-level value type — an origin point, a
direction vector, and a time, with `at(t) = origin + t*direction`. -/
structure Ray where
  orig : Point3
  dir : Vec3
  tm : ℚ
deriving DecidableEq

namespace Ray

/-- Constructor `Ray::new` (time 0). -/
def new (origin : Point3) (direction : Vec3) : Ray := ⟨origin, direction, 0⟩

/-- Constructor `Ray::new_with_time`. -/
def new_with_time (origin : Point3) (direction : Vec3) (time : ℚ) : Ray :=
  ⟨origin, direction, time⟩

/-- Point at parameter `t` (the source's `Ray::at`; `at` is a Lean keyword,
hence the trailing tick): `origin + t*direction`. -/
def at' (r : Ray) (t : ℚ) : Point3 := r.orig + t * r.dir

/-- Accessor `origin()`. -/
def origin (r : Ray) : Point3 := r.orig

/-- Accessor `direction()`. -/
def direction (r : Ray) : Vec3 := r.dir

/-- Accessor `time()`. -/
def time (r : Ray) : ℚ := r.tm

end Ray

/-- Axis-aligned interval with possibly infinite bounds (`interval.rs`). -/
structure Interval where
  min : XQ
  max : XQ
deriving DecidableEq

namespace Interval

/-- `Interval::EMPTY = (+∞, -∞)`. -/
def EMPTY : Interval := ⟨XQ.inf, XQ.ninf⟩

/-- `Interval::UNIVERSE = (-∞, +∞)`. -/
def UNIVERSE : Interval := ⟨XQ.ninf, XQ.inf⟩

/-- Constructor `Interval::new`. -/
def new (min max : XQ) : Interval := ⟨min, max⟩

/-- Union of two intervals (`Interval::from_intervals`). -/
def from_intervals (a b : Interval) : Interval :=
  ⟨if a.min ≤ b.min then a.min else b.min,
   if b.max ≤ a.max then a.max else b.max⟩

/-- Size `max - min`. -/
def size (i : Interval) : XQ := XQ.sub i.max i.min

/-- Closed membership test `contains` (`min <= x && x <= max`). -/
def contains (i : Interval) (x : ℚ) : Bool :=
  XQ.ble i.min (XQ.fin x) && XQ.ble (XQ.fin x) i.max

/-- Strict membership test `surrounds` (`min < x && x < max`). -/
def surrounds (i : Interval) (x : ℚ) : Bool :=
  XQ.blt i.min (XQ.fin x) && XQ.blt (XQ.fin x) i.max

/-- Clamping `clamp` (`if x < min { min } else if x > max { max } else x`). -/
def clamp (i : Interval) (x : ℚ) : XQ :=
  if XQ.blt (XQ.fin x) i.min then i.min
  else if XQ.blt i.max (XQ.fin x) then i.max
  else XQ.fin x

/-- Symmetric padding `expand` (by `delta/2` on each side). -/
def expand (i : Interval) (delta : ℚ) : Interval :=
  new (XQ.sub i.min (XQ.fin (delta / 2))) (XQ.add i.max (XQ.fin (delta / 2)))

end Interval

/-- Axis-aligned bounding box: three per-axis intervals (`aabb.rs`). -/
structure Aabb where
  x : Interval
  y : Interval
  z : Interval
deriving DecidableEq

namespace Aabb

/-- `Aabb::EMPTY`. -/
def EMPTY : Aabb := ⟨Interval.EMPTY, Interval.EMPTY, Interval.EMPTY⟩

/-- `Aabb::UNIVERSE`. -/
def UNIVERSE : Aabb := ⟨Interval.UNIVERSE, Interval.UNIVERSE, Interval.UNIVERSE⟩

/-- Padding `pad_to_minimums`: every axis interval of size `< 0.0001` is
expanded by `0.0001`. -/
def pad_to_minimums (b : Aabb) : Aabb :=
  let delta : ℚ := 1 / 10000
  let bx := if XQ.blt b.x.size (XQ.fin delta) then b.x.expand delta else b.x
  let by_ := if XQ.blt b.y.size (XQ.fin delta) then b.y.expand delta else b.y
  let bz := if XQ.blt b.z.size (XQ.fin delta) then b.z.expand delta else b.z
  ⟨bx, by_, bz⟩

/-- Constructor `Aabb::new`: stores the three intervals, then pads. -/
def new (x y z : Interval) : Aabb := pad_to_minimums ⟨x, y, z⟩

/-- Constructor `Aabb::from_points`: per-axis sorted bounds of two corners. -/
def from_points (a b : Point3) : Aabb :=
  let x := if a.get 0 ≤ b.get 0 then Interval.new (XQ.fin (a.get 0)) (XQ.fin (b.get 0))
           else Interval.new (XQ.fin (b.get 0)) (XQ.fin (a.get 0))
  let y := if a.get 1 ≤ b.get 1 then Interval.new (XQ.fin (a.get 1)) (XQ.fin (b.get 1))
           else Interval.new (XQ.fin (b.get 1)) (XQ.fin (a.get 1))
  let z := if a.get 2 ≤ b.get 2 then Interval.new (XQ.fin (a.get 2)) (XQ.fin (b.get 2))
           else Interval.new (XQ.fin (b.get 2)) (XQ.fin (a.get 2))
  new x y z

/-- Union of two boxes (`Aabb::from_boxes`), per-axis interval union followed
by the constructor's padding. -/
def from_boxes (box0 box1 : Aabb) : Aabb :=
  new (Interval.from_intervals box0.x box1.x)
    (Interval.from_intervals box0.y box1.y)
    (Interval.from_intervals box0.z box1.z)

/-- Axis selector `axis_interval` (`1 ↦ y`, `2 ↦ z`, otherwise `x`). -/
def axis_interval (b : Aabb) (n : Nat) : Interval :=
  match n with
  | 1 => b.y
  | 2 => b.z
  | _ => b.x

/-- Index of the longest axis (`longest_axis`). -/
def longest_axis (b : Aabb) : Nat :=
  if XQ.blt b.y.size b.x.size then
    (if XQ.blt b.z.size b.x.size then 0 else 2)
  else if XQ.blt b.z.size b.y.size then 1
  else 2

/-- Modelled from the spec: `Aabb::surface_area` is called by the SAH scan in
`bvh.rs` but its definition is not present under `src/`; per the spec's SAH
description (§4.1, glossary) it is the box surface area
`2*(dx*dy + dy*dz + dz*dx)`.  The claims proved below do not depend on the
particular cost values, only on the shape of the SAH scan. -/
def surface_area (b : Aabb) : XQ :=
  let dx := b.x.size
  let dy := b.y.size
  let dz := b.z.size
  XQ.mul (XQ.fin 2) (XQ.add (XQ.add (XQ.mul dx dy) (XQ.mul dy dz)) (XQ.mul dz dx))

/-- One axis of the slab test in `Aabb::hit`: computes `t0`, `t1` with IEEE
infinity/NaN semantics and narrows the window exactly as the source does. -/
def slabAxis (ax : Interval) (o d : ℚ) (w : Interval) : Interval :=
  let adinv := FV.inv d
  let t0 := FV.mul (FV.sub ax.min.toFV (FV.fin o)) adinv
  let t1 := FV.mul (FV.sub ax.max.toFV (FV.fin o)) adinv
  if FV.blt t0 t1 then
    let wmin := if FV.blt w.min.toFV t0 then t0.toXQ else w.min
    let wmax := if FV.blt t1 w.max.toFV then t1.toXQ else w.max
    ⟨wmin, wmax⟩
  else
    let wmin := if FV.blt w.min.toFV t1 then t1.toXQ else w.min
    let wmax := if FV.blt t0 w.max.toFV then t0.toXQ else w.max
    ⟨wmin, wmax⟩

/-- Slab test `Aabb::hit`: the three axes narrow the window in order, with the
source's early exit as soon as `ray_t.max <= ray_t.min`. -/
def hit (b : Aabb) (r : Ray) (ray_t : Interval) : Bool :=
  let w0 := slabAxis (b.axis_interval 0) (r.origin.get 0) (r.direction.get 0) ray_t
  if w0.max ≤ w0.min then false
  else
    let w1 := slabAxis (b.axis_interval 1) (r.origin.get 1) (r.direction.get 1) w0
    if w1.max ≤ w1.min then false
    else
      let w2 := slabAxis (b.axis_interval 2) (r.origin.get 2) (r.direction.get 2) w1
      if w2.max ≤ w2.min then false
      else true

end Aabb

/-- Modelled f64 approximation of `std::f64::consts::PI`; no claim proved in
this file depends on its value. -/
def qPi : ℚ := 3141592653589793 / 10 ^ 15

/-- Modelled stand-in for `f64::acos` (transcendental): a fixed computable
function; no claim proved in this file depends on its values. -/
def qAcos (x : ℚ) : ℚ := 1 - x

/-- Modelled stand-in for `f64::atan2` (transcendental): a fixed computable
function; no claim proved in this file depends on its values. -/
def qAtan2 (y x : ℚ) : ℚ := y - x

/-- Hit record (`hittable.rs`, `struct HitRecord`).  The
`Arc<dyn Material>` reference is modelled as an opaque `Nat` identifier in
this geometry part — none of the geometric claims look inside a material. -/
structure HitRecord where
  p : Point3
  normal : Vec3
  mat : Nat
  t : ℚ
  u : ℚ
  v : ℚ
  front_face : Bool
deriving DecidableEq

namespace HitRecord

/-- Face-orientation fixup `HitRecord::set_face_normal`. -/
def set_face_normal (rcd : HitRecord) (r : Ray) (outward_normal : Vec3) :
    HitRecord :=
  let front_face := decide (dot r.direction outward_normal < 0)
  { rcd with
    front_face := front_face
    normal := if front_face then outward_normal else -outward_normal }

/-- Constructor `HitRecord::new` (builds the record, then applies
`set_face_normal`). -/
def new (p : Point3) (t : ℚ) (r : Ray) (outward_normal : Vec3) (mat : Nat)
    (u v : ℚ) : HitRecord :=
  set_face_normal
    { p := p, normal := outward_normal, mat := mat, t := t, u := u, v := v,
      front_face := false } r outward_normal

end HitRecord

/-- Axis-aligned-plane quadrilateral (`quad.rs`, `struct Quad`). -/
structure Quad where
  q : Point3
  u : Vec3
  v : Vec3
  w : Vec3
  mat : Nat
  bbox : Aabb
  normal : Vec3
  d : ℚ
deriving DecidableEq

namespace Quad

/-- Constructor `Quad::new` (including `set_bounding_box`, which unions the
boxes of the two diagonals). -/
def new (q u v : Vec3) (mat : Nat) : Quad :=
  let n := cross u v
  let normal := unit_vector n
  let d := dot normal q
  let w := n / dot n n
  let bbox_diagonal1 := Aabb.from_points q (q + u + v)
  let bbox_diagonal2 := Aabb.from_points (q + u) (q + v)
  { q := q, u := u, v := v, w := w, mat := mat,
    bbox := Aabb.from_boxes bbox_diagonal1 bbox_diagonal2,
    normal := normal, d := d }

/-- Planar-coordinate interior test `Quad::is_interior` (closed unit square;
on success the source also stores `a`, `b` into `rec.u`, `rec.v`, modelled in
`Quad.hit` by the record update). -/
def is_interior (a b : ℚ) : Bool :=
  let unit_interval := Interval.new (XQ.fin 0) (XQ.fin 1)
  unit_interval.contains a && unit_interval.contains b

/-- Intersection `Quad::hit`. -/
def hit (qd : Quad) (r : Ray) (ray_t : Interval) : Option HitRecord :=
  let denom := dot qd.normal r.direction
  if |denom| < 1 / 10 ^ 8 then none
  else
    let t := (qd.d - dot qd.normal r.origin) / denom
    if !ray_t.contains t then none
    else
      let intersection := r.at' t
      let planar_hitpt_vector := intersection - qd.q
      let alpha := dot qd.w (cross planar_hitpt_vector qd.v)
      let beta := dot qd.w (cross qd.u planar_hitpt_vector)
      let rcd := HitRecord.new intersection t r qd.normal qd.mat 0 0
      if !is_interior alpha beta then none
      else some { rcd with u := alpha, v := beta }

end Quad

/-- Sphere with a motion segment (`sphere.rs`, `struct Sphere`; the
`the_next_week` and `the_rest_of_your_life` versions of the geometry are
identical). -/
structure Sphere where
  center : Ray
  radius : ℚ
  mat : Nat
  bbox : Aabb
deriving DecidableEq

namespace Sphere

/-- Constructor `Sphere::new`: the stored radius is `radius.max(0.0)`, while
the cached box is computed from the unclamped `radius` argument. -/
def new (static_center : Point3) (radius : ℚ) (mat : Nat) : Sphere :=
  let rvec := Vec3.new radius radius radius
  let bbox := Aabb.from_points (static_center - rvec) (static_center + rvec)
  { center := Ray.new static_center (Vec3.new 0 0 0),
    radius := max radius 0, mat := mat, bbox := bbox }

/-- Constructor `Sphere::new_moving`. -/
def new_moving (center1 center2 : Point3) (radius : ℚ) (mat : Nat) : Sphere :=
  let rvec := Vec3.new radius radius radius
  let box1 := Aabb.from_points (center1 - rvec) (center1 + rvec)
  let box2 := Aabb.from_points (center2 - rvec) (center2 + rvec)
  let bbox := Aabb.from_boxes box1 box2
  { center := Ray.new center1 (center2 - center1),
    radius := max radius 0, mat := mat, bbox := bbox }

/-- Surface parameterization `Sphere::get_sphere_uv` (via the modelled
transcendental stand-ins; no claim depends on the values). -/
def get_sphere_uv (p : Point3) : ℚ × ℚ :=
  let theta := qAcos (-p.y)
  let phi := qAtan2 (-p.z) p.x + qPi
  (phi / (2 * qPi), theta / qPi)

/-- Intersection `Sphere::hit` (the source tries the smaller quadratic root,
then the larger). -/
def hit (s : Sphere) (r : Ray) (ray_t : Interval) : Option HitRecord :=
  let current_center := s.center.at' r.time
  let oc := current_center - r.origin
  let a := r.direction.length_squared
  let h := dot r.direction oc
  let c := oc.length_squared - s.radius * s.radius
  let discriminant := h * h - a * c
  if discriminant < 0 then none
  else
    let sqrtd := qSqrt discriminant
    let root1 := (h - sqrtd) / a
    let mkRec := fun (root : ℚ) =>
      let p := r.at' root
      let outward_normal := (p - current_center) / s.radius
      let uv := get_sphere_uv outward_normal
      HitRecord.new p root r outward_normal s.mat uv.1 uv.2
    if ray_t.surrounds root1 then some (mkRec root1)
    else
      let root2 := (h + sqrtd) / a
      if ray_t.surrounds root2 then some (mkRec root2)
      else none

end Sphere

/-- Abstract primitive reference (`Arc<dyn Hittable + Send + Sync>`): the pair
of the object's `hit` method and its cached `bounding_box()`.  `BvhNode::build`,
`BvhNode::hit` and `HittableList::hit` are generic over this interface in the
source; the embedding is parametric in it, and `Quad.toPrim` / `Sphere.toPrim`
give the concrete instances. -/
structure Prim where
  hitFn : Ray → Interval → Option HitRecord
  bbox : Aabb

/-- View of a quad as a trait object. -/
def Quad.toPrim (qd : Quad) : Prim := ⟨qd.hit, qd.bbox⟩

/-- View of a sphere as a trait object. -/
def Sphere.toPrim (s : Sphere) : Prim := ⟨s.hit, s.bbox⟩

/-- Loop body of `HittableList::hit`: fold over the objects, carrying
`hit_anything` and `closest_so_far`, querying each object on
`Interval::new(ray_t.min, closest_so_far)`. -/
def hitScanGo (r : Ray) (tmin : XQ) :
    List Prim → Option HitRecord → XQ → Option HitRecord
  | [], acc, _ => acc
  | p :: rest, acc, closest =>
    match p.hitFn r (Interval.new tmin closest) with
    | some rcd => hitScanGo r tmin rest (some rcd) (XQ.fin rcd.t)
    | none => hitScanGo r tmin rest acc closest

/-- Linear closest-hit scan `HittableList::hit`. -/
def HittableList.hit (objects : List Prim) (r : Ray) (ray_t : Interval) :
    Option HitRecord :=
  hitScanGo r ray_t.min objects none ray_t.max

/-! ## Integrator embedding (`the_rest_of_your_life`): rng, materials, pdfs,
camera.  `f64` transcendentals without claims about their values are modelled
by uninterpreted rational stand-ins. -/

/-- Uninterpreted stand-in for `f64::tan`; no claim depends on its values. -/
def qTan (x : ℚ) : ℚ := x

/-- Uninterpreted stand-in for `f64::sin`; no claim depends on its values. -/
def qSin (x : ℚ) : ℚ := x

/-- Uninterpreted stand-in for `f64::cos`; no claim depends on its values. -/
def qCos (x : ℚ) : ℚ := 1 - x

/-- Explicit random-number stream, modelling the thread-local `SmallRng` of
`rtweekend.rs` with the entropy made an explicit input: `seq` is the sequence
of unit-interval values the generator yields and `idx` counts the draws
consumed so far. -/
structure Rng where
  seq : Nat → ℚ
  idx : Nat

/-- `random_double()`: the next unit-interval draw, advancing the stream. -/
def random_double (g : Rng) : ℚ × Rng := (g.seq g.idx, ⟨g.seq, g.idx + 1⟩)

/-- `random_double_range(min, max)`: one draw of the underlying generator,
affinely mapped onto `[min, max)` (the `rand` crate is outside `src/`; the
spec describes uniform draws on the half-open range). -/
def random_double_range (mn mx : ℚ) (g : Rng) : ℚ × Rng :=
  let p := random_double g
  (mn + (mx - mn) * p.1, p.2)

/-- `Vec3::random_range`: three component draws in order. -/
def Vec3.random_range (mn mx : ℚ) (g : Rng) : Vec3 × Rng :=
  let p1 := random_double_range mn mx g
  let p2 := random_double_range mn mx p1.2
  let p3 := random_double_range mn mx p2.2
  (Vec3.new p1.1 p2.1 p3.1, p3.2)

/-- Rejection loop of `random_unit_vector`, with an explicit trial bound (the
source loops until acceptance; the fallback arm is unreachable for streams
that ever produce an accepted sample). -/
def random_unit_vector_go : Nat → Rng → Vec3 × Rng
  | 0, g => (Vec3.new 1 0 0, g)
  | fuel + 1, g =>
    let p := Vec3.random_range (-1) 1 g
    let lensq := p.1.length_squared
    if 1 / 10 ^ 160 < lensq ∧ lensq ≤ 1 then (p.1 / qSqrt lensq, p.2)
    else random_unit_vector_go fuel p.2

/-- `random_unit_vector()`. -/
def random_unit_vector (g : Rng) : Vec3 × Rng := random_unit_vector_go 1000 g

/-- Rejection loop of `random_in_unit_disk`, with an explicit trial bound. -/
def random_in_unit_disk_go : Nat → Rng → Vec3 × Rng
  | 0, g => (Vec3.new 0 0 0, g)
  | fuel + 1, g =>
    let p1 := random_double_range (-1) 1 g
    let p2 := random_double_range (-1) 1 p1.2
    let p := Vec3.new p1.1 p2.1 0
    if p.length_squared < 1 then (p, p2.2)
    else random_in_unit_disk_go fuel p2.2

/-- `random_in_unit_disk()`. -/
def random_in_unit_disk (g : Rng) : Vec3 × Rng := random_in_unit_disk_go 1000 g

/-- Modelled from the spec: `random_cosine_direction` is referenced by
`pdf.rs` but its defining `vec3` source is not under `src/`; the spec (§4.4)
describes the standard cosine-weighted hemisphere sample from two uniform
draws.  No claim depends on the sampled values. -/
def random_cosine_direction (g : Rng) : Vec3 × Rng :=
  let p1 := random_double g
  let p2 := random_double p1.2
  let phi := 2 * qPi * p1.1
  (Vec3.new (qCos phi * qSqrt p2.1) (qSin phi * qSqrt p2.1) (qSqrt (1 - p2.1)),
    p2.2)

/-- Orthonormal basis (`onb.rs`, `struct Onb { axis: [Vec3; 3] }`, with the
three axes as named fields `u, v, w` matching the accessors). -/
structure Onb where
  u : Vec3
  v : Vec3
  w : Vec3

/-- Constructor `Onb::new`. -/
def Onb.new (n : Vec3) : Onb :=
  let w := unit_vector n
  let a := if 9 / 10 < |w.x| then Vec3.new 0 1 0 else Vec3.new 1 0 0
  let v := unit_vector (cross w a)
  let u := cross w v
  ⟨u, v, w⟩

/-- Basis transform `Onb::transform`. -/
def Onb.transform (b : Onb) (vin : Vec3) : Vec3 :=
  vin.x * b.u + vin.y * b.v + vin.z * b.w

/-- Trait-object view of the `lights: HittableRef` argument of
`Camera::render` / `Camera::ray_color`, as used through `HittablePdf`: its
`pdf_value` and `random` methods (the latter with the rng made explicit,
since e.g. `HittableList::random` draws a random index). -/
structure Lights where
  pdf_value : Point3 → Vec3 → ℚ
  random : Point3 → Rng → Vec3 × Rng

/-- Probability-density trait objects (`pdf.rs`, `enum PdfObject`), with the
structs' fields inlined into the constructors. -/
inductive PdfObject where
  | SpherePdf : PdfObject
  | CosinePdf (uvw : Onb) : PdfObject
  | HittablePdf (objects : Lights) (origin : Point3) : PdfObject
  | MixturePdf (p0 p1 : PdfObject) : PdfObject

/-- Density dispatch `PdfObject::value`. -/
def PdfObject.value : PdfObject → Vec3 → ℚ
  | .SpherePdf, _ => 1 / (4 * qPi)
  | .CosinePdf uvw, direction =>
    let cosine_theta := dot (unit_vector direction) uvw.w
    if cosine_theta ≤ 0 then 0 else cosine_theta / qPi
  | .HittablePdf objects origin, direction => objects.pdf_value origin direction
  | .MixturePdf p0 p1, direction =>
    1 / 2 * p0.value direction + 1 / 2 * p1.value direction

/-- Sample dispatch `PdfObject::generate` (`MixturePdf::generate` first draws
the coin, then samples the chosen component). -/
def PdfObject.generate : PdfObject → Rng → Vec3 × Rng
  | .SpherePdf, g => random_unit_vector g
  | .CosinePdf uvw, g =>
    let p := random_cosine_direction g
    (uvw.transform p.1, p.2)
  | .HittablePdf objects origin, g => objects.random origin g
  | .MixturePdf p0 p1, g =>
    let p := random_double g
    if p.1 < 1 / 2 then p0.generate p.2 else p1.generate p.2

/-- Materials (`material.rs`, `enum MaterialObject`), with the structs'
fields inlined into the constructors.  `texture.rs` is not under `src/`; all
textures the materials are built with are `SolidColor`, so a `TextureRef` is
flattened to the solid color whose `value(u, v, p)` it returns. -/
inductive MaterialObject where
  | Lambertian (tex : Color) : MaterialObject
  | Metal (albedo : Color) (fuzz : ℚ) : MaterialObject
  | Dielectric (refraction_index : ℚ) : MaterialObject
  | DiffuseLight (tex : Color) : MaterialObject
  | Isotropic (tex : Color) : MaterialObject
  | EmptyMaterial : MaterialObject

/-- Hit record of the integrator book (`hittable.rs` of
`the_rest_of_your_life`): same shape as the geometry record, with the stored
`MaterialRef` trait object inlined. -/
structure HitRecordB where
  p : Point3
  normal : Vec3
  mat : MaterialObject
  t : ℚ
  u : ℚ
  v : ℚ
  front_face : Bool

/-- Scatter result (`material.rs`, `struct ScatterRecord`). -/
structure ScatterRecord where
  attenuation : Color
  pdf_ptr : Option PdfObject
  skip_pdf : Bool
  skip_pdf_ray : Ray

/-- Schlick approximation `Dielectric::reflectance`. -/
def Dielectric.reflectance (cosine refraction_index : ℚ) : ℚ :=
  let r0 := (1 - refraction_index) / (1 + refraction_index)
  let r0sq := r0 * r0
  r0sq + (1 - r0sq) * (1 - cosine) ^ (5 : ℕ)

/-- Emission dispatch `MaterialObject::emitted` (only `DiffuseLight`
overrides the default black). -/
def MaterialObject.emitted : MaterialObject → Ray → HitRecordB → ℚ → ℚ →
    Point3 → Color
  | .DiffuseLight tex, _, rec, _, _, _ =>
    if !rec.front_face then Vec3.new 0 0 0 else tex
  | _, _, _, _, _, _ => Vec3.new 0 0 0

/-- Scatter dispatch `MaterialObject::scatter`, with the rng explicit:
`Metal` draws a fuzz direction, `Dielectric` draws the reflectance coin (only
when refraction is possible — `||` short-circuits), the rest draw nothing. -/
def MaterialObject.scatter : MaterialObject → Ray → HitRecordB → Rng →
    Option ScatterRecord × Rng
  | .Lambertian tex, r_in, rec, g =>
    (some { attenuation := tex,
            pdf_ptr := some (.CosinePdf (Onb.new rec.normal)),
            skip_pdf := false,
            skip_pdf_ray := Ray.new_with_time rec.p rec.normal r_in.time }, g)
  | .Metal albedo fuzz, r_in, rec, g =>
    let reflected0 := reflect r_in.direction rec.normal
    let p := random_unit_vector g
    let reflected := unit_vector reflected0 + fuzz * p.1
    (some { attenuation := albedo, pdf_ptr := none, skip_pdf := true,
            skip_pdf_ray := Ray.new_with_time rec.p reflected r_in.time }, p.2)
  | .Dielectric refraction_index, r_in, rec, g =>
    let attenuation := Vec3.new 1 1 1
    let ri := if rec.front_face then 1 / refraction_index
              else refraction_index
    let unit_direction := unit_vector r_in.direction
    let cos_theta := min (-(dot unit_direction rec.normal)) 1
    let sin_theta := qSqrt (1 - cos_theta * cos_theta)
    let cannot_refract := 1 < ri * sin_theta
    let dg : Vec3 × Rng :=
      if cannot_refract then (reflect unit_direction rec.normal, g)
      else
        let p := random_double g
        if p.1 < Dielectric.reflectance cos_theta ri then
          (reflect unit_direction rec.normal, p.2)
        else (refract unit_direction rec.normal ri, p.2)
    (some { attenuation := attenuation, pdf_ptr := none, skip_pdf := true,
            skip_pdf_ray := Ray.new_with_time rec.p dg.1 r_in.time }, dg.2)
  | .DiffuseLight _, _, _, g => (none, g)
  | .Isotropic tex, r_in, rec, g =>
    (some { attenuation := tex, pdf_ptr := some .SpherePdf,
            skip_pdf := false,
            skip_pdf_ray :=
              Ray.new_with_time rec.p (Vec3.new 1 0 0) r_in.time }, g)
  | .EmptyMaterial, _, _, g => (none, g)

/-- Density dispatch `MaterialObject::scattering_pdf` (only `Lambertian` and
`Isotropic` override the default `0.0`). -/
def MaterialObject.scattering_pdf : MaterialObject → Ray → HitRecordB →
    Ray → ℚ
  | .Lambertian _, _, rec, scattered =>
    let cos_theta := dot rec.normal (unit_vector scattered.direction)
    if cos_theta < 0 then 0 else cos_theta / qPi
  | .Isotropic _, _, _, _ => 1 / (4 * qPi)
  | _, _, _, _ => 0

/-- Trait-object view of the `world: &H` argument of `Camera::ray_color`:
its `hit` method. -/
structure World where
  hit : Ray → Interval → Option HitRecordB

/-- `f64::clamp(self, min, max)`. -/
def fclamp (v lo hi : ℚ) : ℚ := if v < lo then lo else if hi < v then hi else v

/-- Camera configuration (`camera.rs`, public fields of `struct Camera`). -/
structure Camera where
  aspect_ratio : ℚ
  image_width : ℤ
  samples_per_pixel : ℤ
  max_depth : ℤ
  background : Color
  vfov : ℚ
  lookfrom : Point3
  lookat : Point3
  vup : Vec3
  defocus_angle : ℚ
  focus_dist : ℚ

/-- One step of `Camera::ray_color` (lines 186-256), with the recursive call
abstracted into `recur` and the rng explicit.  The two `&&`/`||`-guarded
draws (`rr_prob < 1.0 && random_double() > rr_prob`) happen only when the
left operand holds, matching the short-circuit evaluation. -/
def rayColorStep (cam : Camera) (world : World) (lights : Lights)
    (recur : Ray → Rng → Color × Rng) (r : Ray) (depth : ℤ) (g : Rng) :
    Color × Rng :=
  if depth ≤ 0 then (Vec3.new 0 0 0, g)
  else
    match world.hit r (Interval.new (XQ.fin (1 / 1000)) XQ.inf) with
    | none => (cam.background, g)
    | some rec =>
      let emitted := rec.mat.emitted r rec rec.u rec.v rec.p
      match rec.mat.scatter r rec g with
      | (none, g1) => (emitted, g1)
      | (some srec, g1) =>
        if srec.skip_pdf then
          let bounces := cam.max_depth - depth
          if 5 ≤ bounces then
            let p := fclamp
              (max (max srec.attenuation.x srec.attenuation.y)
                srec.attenuation.z) (1 / 20) (19 / 20)
            let d := random_double g1
            if p < d.1 then (emitted, d.2)
            else
              let c3 := recur srec.skip_pdf_ray d.2
              (emitted + srec.attenuation * c3.1 / p, c3.2)
          else
            let c3 := recur srec.skip_pdf_ray g1
            (emitted + srec.attenuation * c3.1, c3.2)
        else
          match srec.pdf_ptr with
          | none => (emitted, g1)
          | some pdf_p =>
            let bounces := cam.max_depth - depth
            let rr_prob := if 5 ≤ bounces then
                fclamp (max (max srec.attenuation.x srec.attenuation.y)
                  srec.attenuation.z) (1 / 20) (19 / 20)
              else 1
            let rrRes : Bool × Rng :=
              if rr_prob < 1 then
                let d := random_double g1
                (decide (rr_prob < d.1), d.2)
              else (false, g1)
            if rrRes.1 then (emitted, rrRes.2)
            else
              let light_pdf := PdfObject.HittablePdf lights rec.p
              let mixed_pdf := PdfObject.MixturePdf light_pdf pdf_p
              let gen := mixed_pdf.generate rrRes.2
              let scattered := Ray.new_with_time rec.p gen.1 r.time
              let pdf_value := mixed_pdf.value scattered.direction
              if pdf_value ≤ 0 then (emitted, gen.2)
              else
                let scattering_pdf :=
                  rec.mat.scattering_pdf r rec scattered
                let sample := recur scattered gen.2
                (emitted + srec.attenuation * scattering_pdf * sample.1
                    / (pdf_value * rr_prob), sample.2)

/-- `Camera::ray_color` with an explicit structural fuel; along every
reachable call the fuel equals `depth.toNat`, and when `depth <= 0` both the
exhausted and the non-exhausted arm return black, so the wrapper below is
exact. -/
def rayColorFuel (cam : Camera) (world : World) (lights : Lights) :
    Nat → Ray → ℤ → Rng → Color × Rng
  | 0, _, _, g => (Vec3.new 0 0 0, g)
  | fuel + 1, r, depth, g =>
    rayColorStep cam world lights
      (fun r2 g2 => rayColorFuel cam world lights fuel r2 (depth - 1) g2)
      r depth g

/-- `Camera::ray_color`. -/
def ray_color (cam : Camera) (world : World) (lights : Lights) (r : Ray)
    (depth : ℤ) (g : Rng) : Color × Rng :=
  rayColorFuel cam world lights depth.toNat r depth g

/-- `linear_to_gamma` (`color.rs`). -/
def linear_to_gamma (linear_component : ℚ) : ℚ :=
  if 0 < linear_component then qSqrt linear_component else 0

/-- Rust `as i32` truncation toward zero on the modelled `f64` values. -/
def f64_as_i32 (q : ℚ) : ℤ := q.num / (q.den : ℤ)

/-- The rational carried by a finite extended value (only applied to results
of clamping into finite intervals, which are always finite). -/
def XQ.toRat : XQ → ℚ
  | XQ.fin q => q
  | _ => 0

/-- `write_color` (`color.rs`): gamma correction, clamp to `[0, 0.999]`,
quantize; the three bytes written to the stream are returned as a triple. -/
def write_color (pixel_color : Color) : ℤ × ℤ × ℤ :=
  let r := linear_to_gamma pixel_color.x
  let g := linear_to_gamma pixel_color.y
  let b := linear_to_gamma pixel_color.z
  let intensity := Interval.new (XQ.fin 0) (XQ.fin (999 / 1000))
  (f64_as_i32 (256 * (intensity.clamp r).toRat),
   f64_as_i32 (256 * (intensity.clamp g).toRat),
   f64_as_i32 (256 * (intensity.clamp b).toRat))

/-- Cached camera state (`struct CameraInternals`). -/
structure CameraInternals where
  image_height : ℤ
  pixel_samples_scale : ℚ
  sqrt_spp : ℤ
  recip_sqrt_spp : ℚ
  center : Point3
  pixel00_loc : Point3
  pixel_delta_u : Vec3
  pixel_delta_v : Vec3
  defocus_disk_u : Vec3
  defocus_disk_v : Vec3

/-- `degrees_to_radians` (`rtweekend.rs`). -/
def degrees_to_radians (degrees : ℚ) : ℚ := degrees * qPi / 180

/-- `Camera::initialize`. -/
def Camera.initialize (c : Camera) : CameraInternals :=
  let image_height0 := f64_as_i32 ((c.image_width : ℚ) / c.aspect_ratio)
  let image_height := if image_height0 < 1 then 1 else image_height0
  let sqrt_spp := f64_as_i32 (qSqrt (c.samples_per_pixel : ℚ))
  let pixel_samples_scale := 1 / ((sqrt_spp * sqrt_spp : ℤ) : ℚ)
  let recip_sqrt_spp := 1 / (sqrt_spp : ℚ)
  let center := c.lookfrom
  let theta := degrees_to_radians c.vfov
  let h := qTan (theta / 2)
  let viewport_height := 2 * h * c.focus_dist
  let viewport_width :=
    viewport_height * ((c.image_width : ℚ) / (image_height : ℚ))
  let w := unit_vector (c.lookfrom - c.lookat)
  let u := unit_vector (cross c.vup w)
  let v := cross w u
  let viewport_u := viewport_width * u
  let viewport_v := viewport_height * (-v)
  let pixel_delta_u := viewport_u / (c.image_width : ℚ)
  let pixel_delta_v := viewport_v / (image_height : ℚ)
  let viewport_upper_left := center - (c.focus_dist * w)
    - viewport_u / (2 : ℚ) - viewport_v / (2 : ℚ)
  let pixel00_loc :=
    viewport_upper_left + (1 / 2 : ℚ) * (pixel_delta_u + pixel_delta_v)
  let defocus_radius :=
    c.focus_dist * qTan (degrees_to_radians (c.defocus_angle / 2))
  { image_height := image_height, pixel_samples_scale := pixel_samples_scale,
    sqrt_spp := sqrt_spp, recip_sqrt_spp := recip_sqrt_spp, center := center,
    pixel00_loc := pixel00_loc, pixel_delta_u := pixel_delta_u,
    pixel_delta_v := pixel_delta_v, defocus_disk_u := u * defocus_radius,
    defocus_disk_v := v * defocus_radius }

/-- `Camera::sample_square_stratified`. -/
def Camera.sample_square_stratified (_c : Camera) (s_i s_j : ℤ)
    (recip_sqrt_spp : ℚ) (g : Rng) : Vec3 × Rng :=
  let p1 := random_double g
  let p2 := random_double p1.2
  (Vec3.new (((s_i : ℚ) + p1.1) * recip_sqrt_spp - 1 / 2)
    (((s_j : ℚ) + p2.1) * recip_sqrt_spp - 1 / 2) 0, p2.2)

/-- `Camera::defocus_disk_sample`. -/
def Camera.defocus_disk_sample (_c : Camera) (data : CameraInternals)
    (g : Rng) : Point3 × Rng :=
  let p := random_in_unit_disk g
  (data.center + (p.1.x * data.defocus_disk_u) + (p.1.y * data.defocus_disk_v),
    p.2)

/-- `Camera::get_ray`. -/
def Camera.get_ray (c : Camera) (data : CameraInternals) (i j s_i s_j : ℤ)
    (g : Rng) : Ray × Rng :=
  let off := c.sample_square_stratified s_i s_j data.recip_sqrt_spp g
  let pixel_sample := data.pixel00_loc
    + ((i : ℚ) + off.1.x) * data.pixel_delta_u
    + ((j : ℚ) + off.1.y) * data.pixel_delta_v
  let org : Point3 × Rng :=
    if c.defocus_angle ≤ 0 then (data.center, off.2)
    else c.defocus_disk_sample data off.2
  let ray_direction := pixel_sample - org.1
  let tg := random_double org.2
  (Ray.new_with_time org.1 ray_direction tg.1, tg.2)

/-- Ascending counted `for` loop: `forLoop f start n` applies `f` at
`start, start+1, ..., start+n-1` in order. -/
def forLoop (f : ℤ → α → α) (start : ℤ) : Nat → α → α
  | 0, a => a
  | n + 1, a => forLoop f (start + 1) n (f start a)

/-- Per-pixel sample accumulation of `Camera::render` (the two stratified
sample loops), threading the row's rng. -/
def samplePixel (c : Camera) (data : CameraInternals) (world : World)
    (lights : Lights) (i j : ℤ) (g : Rng) : Color × Rng :=
  forLoop (fun s_j st =>
      forLoop (fun s_i st2 =>
          let rg := Camera.get_ray c data i j s_i s_j st2.2
          let cg := ray_color c world lights rg.1 c.max_depth rg.2
          (st2.1 + cg.1, cg.2))
        0 data.sqrt_spp.toNat st)
    0 data.sqrt_spp.toNat (Vec3.new 0 0 0, g)

/-- One scanline of `Camera::render` (the body of the parallel row map):
the pixels of row `j`, quantized by `write_color`, threading one rng stream
through the row left to right. -/
def renderRow (c : Camera) (data : CameraInternals) (world : World)
    (lights : Lights) (j : ℤ) (g : Rng) : List (ℤ × ℤ × ℤ) :=
  (forLoop (fun i st =>
      let pg := samplePixel c data world lights i j st.2
      (st.1 ++ [write_color (data.pixel_samples_scale * pg.1)], pg.2))
    0 c.image_width.toNat ([], g)).1

/-- `Camera::render` with the per-row entropy explicit: row `j` consumes the
stream `rowRng j` (the source hands each rayon worker its own thread-local
generator), and the rows are assembled in index order. -/
def Camera.render (c : Camera) (world : World) (lights : Lights)
    (rowRng : Nat → Rng) : List (List (ℤ × ℤ × ℤ)) :=
  let data := c.initialize
  (List.range data.image_height.toNat).map
    (fun (j : Nat) => renderRow c data world lights (j : ℤ) (rowRng j))

/-- `Camera::render` with the row work list scheduled in an arbitrary order
(modelling rayon's nondeterministic work stealing) and the finished rows
assembled back by index, as `collect` on the indexed parallel iterator
does. -/
def Camera.renderScheduled (c : Camera) (world : World) (lights : Lights)
    (rowRng : Nat → Rng) (schedule : List Nat) : List (List (ℤ × ℤ × ℤ)) :=
  let data := c.initialize
  let rows := schedule.map
    (fun (j : Nat) => (j, renderRow c data world lights (j : ℤ) (rowRng j)))
  (List.range data.image_height.toNat).map (fun j => (rows.lookup j).getD [])

/-- BVH tree (`bvh.rs`, `struct BvhNode`): a node owns two children (each an
`Arc<dyn Hittable>`, i.e. either another `BvhNode` or a leaf primitive) and a
bounding box. -/
inductive BvhTree where
  | prim (p : Prim) : BvhTree
  | node (left right : BvhTree) (bbox : Aabb) : BvhTree

/-- Dispatch of `bounding_box()` on a child trait object. -/
def BvhTree.bounding_box : BvhTree → Aabb
  | .prim p => p.bbox
  | .node _ _ bbox => bbox

/-- Traversal `BvhNode::hit`: slab-test the node box with the incoming window,
recurse left with that window, recurse right with the window narrowed to the
left hit's `t` if any, and prefer the right result (`hit_right.or(hit_left)`). -/
def BvhTree.hit : BvhTree → Ray → Interval → Option HitRecord
  | .prim p, r, ray_t => p.hitFn r ray_t
  | .node left right bbox, r, ray_t =>
    if !bbox.hit r ray_t then none
    else
      let hit_left := left.hit r ray_t
      let hit_right :=
        match hit_left with
        | some rcd => right.hit r (Interval.new ray_t.min (XQ.fin rcd.t))
        | none => right.hit r ray_t
      hit_right.or hit_left

/-- Number of SAH buckets (`NUM_BUCKETS`). -/
def NUM_BUCKETS : Nat := 12

/-- Ordering key of the sort comparator in `BvhNode::build`: compare the
minima of the boxes' intervals on the split axis (the floats are non-NaN, so
`partial_cmp(..).unwrap_or(Equal)` is the total order on the key). -/
def boxCompareLe (axis : Nat) (a b : Prim) : Bool :=
  XQ.ble (a.bbox.axis_interval axis).min (b.bbox.axis_interval axis).min

/-- Centroid of a primitive's box on an axis (`0.5 * (min + max)`). -/
def centroidOf (axis : Nat) (o : Prim) : XQ :=
  XQ.mul (XQ.fin (1 / 2))
    (XQ.add (o.bbox.axis_interval axis).min (o.bbox.axis_interval axis).max)

/-- Centroid range scan of `BvhNode::build`: fold starting from
`(+∞, -∞)`, updating on `centroid < centroid_min` / `centroid > centroid_max`. -/
def centroidRange (axis : Nat) (objects : List Prim) : XQ × XQ :=
  objects.foldl
    (fun mm o =>
      let c := centroidOf axis o
      (if c < mm.1 then c else mm.1, if mm.2 < c then c else mm.2))
    (XQ.inf, XQ.ninf)

/-- Bucket index of a primitive:
`((centroid - min) / (max - min) * NUM_BUCKETS) as usize`, clamped to the last
bucket. -/
def bucketIdx (axis : Nat) (cmin cmax : XQ) (o : Prim) : Nat :=
  let c := centroidOf axis o
  let idx :=
    XQ.toUsize
      (XQ.mul (XQ.div (XQ.sub c cmin) (XQ.sub cmax cmin)) (XQ.fin (NUM_BUCKETS : ℚ)))
  if NUM_BUCKETS ≤ idx then NUM_BUCKETS - 1 else idx

/-- Bucket filling loop of `BvhNode::build` (count and box union per bucket). -/
def bucketize (axis : Nat) (cmin cmax : XQ) (objects : List Prim) :
    List (Nat × Aabb) :=
  objects.foldl
    (fun bs o =>
      let i := bucketIdx axis cmin cmax o
      let b := bs.getD i (0, Aabb.EMPTY)
      bs.set i (b.1 + 1, Aabb.from_boxes b.2 o.bbox))
    (List.replicate NUM_BUCKETS (0, Aabb.EMPTY))

/-- Suffix accumulation of `BvhNode::build` (`right_bbox[i]`,
`right_count[i]`: box union and count of buckets `i..`). -/
def suffixScan : List (Nat × Aabb) → List (Aabb × Nat)
  | [] => []
  | b :: rest =>
    let r := suffixScan rest
    let prev := match r with | [] => (Aabb.EMPTY, 0) | x :: _ => x
    (Aabb.from_boxes prev.1 b.2, prev.2 + b.1) :: r

/-- SAH scan of `BvhNode::build`: walk the `NUM_BUCKETS - 1` candidate splits
accumulating the left box/count, skip splits with an empty side, and keep the
(strictly) cheapest cost with its split index.  Returns `(best_cost,
best_split)`; `best_cost` stays `+∞` if every split was skipped. -/
def sahScan (buckets : List (Nat × Aabb)) (rightInfo : List (Aabb × Nat)) :
    XQ × Nat :=
  let result :=
    (List.range (NUM_BUCKETS - 1)).foldl
      (fun st i =>
        let b := buckets.getD i (0, Aabb.EMPTY)
        let left_count := st.1.2 + b.1
        let left_bbox := Aabb.from_boxes st.1.1 b.2
        let rb := rightInfo.getD (i + 1) (Aabb.EMPTY, 0)
        if left_count = 0 ∨ rb.2 = 0 then ((left_bbox, left_count), st.2)
        else
          let cost :=
            XQ.add (XQ.mul left_bbox.surface_area (XQ.fin (left_count : ℚ)))
              (XQ.mul rb.1.surface_area (XQ.fin (rb.2 : ℚ)))
          if cost < st.2.1 then ((left_bbox, left_count), (cost, i))
          else ((left_bbox, left_count), st.2))
      ((Aabb.EMPTY, 0), (XQ.inf, 0))
  result.2

/-- Functional rendering of the in-place swap partition of `BvhNode::build`
(`if idx <= best_split { objects.swap(i, mid); mid += 1 }`): the matching
elements end up at the front in their original order, and each swap rotates
the block of already-seen non-matching elements by one. -/
def partitionLoopGo (pred : Prim → Bool) :
    List Prim → List Prim → List Prim → List Prim × List Prim
  | [], ts, fs => (ts, fs)
  | o :: rest, ts, fs =>
    if pred o then partitionLoopGo pred rest (ts ++ [o]) (fs.rotate 1)
    else partitionLoopGo pred rest ts (fs ++ [o])

/-- Median-split fallback of `BvhNode::build`: stable-sort by the comparator,
split at `object_span / 2`.  The source's `sort_by` is a stable sort; it is
modelled by the (equally stable, structurally recursive) insertion sort — the
proofs below use only that the result is a permutation of the input. -/
def sortFallbackParts (axis : Nat) (objects : List Prim) :
    List Prim × List Prim :=
  let sorted := objects.insertionSort (fun a b => boxCompareLe axis a b = true)
  (sorted.take (objects.length / 2), sorted.drop (objects.length / 2))

/-- Union of the objects' boxes, as computed at the top of `BvhNode::build`
(fold of `Aabb::from_boxes` starting from `Aabb::EMPTY`). -/
def boxFold (objects : List Prim) : Aabb :=
  objects.foldl (fun b o => Aabb.from_boxes b o.bbox) Aabb.EMPTY

/-- Split selection of `BvhNode::build` for the `object_span > 2` case: the
degenerate-centroid median fallback, else the SAH bucket scan with its
no-finite-cost fallback, else the in-place partition with its degenerate
fallback.  Returns the two sublists the source recurses on. -/
def buildParts (objects : List Prim) : List Prim × List Prim :=
  let bbox := boxFold objects
  let axis := bbox.longest_axis
  let cr := centroidRange axis objects
  if XQ.blt (XQ.sub cr.2 cr.1).abs (XQ.fin (1 / 10 ^ 12)) then
    sortFallbackParts axis objects
  else
    let buckets := bucketize axis cr.1 cr.2 objects
    let rightInfo := suffixScan buckets
    let sah := sahScan buckets rightInfo
    if !sah.1.isFinite then sortFallbackParts axis objects
    else
      let p := partitionLoopGo (fun o => bucketIdx axis cr.1 cr.2 o ≤ sah.2)
        objects [] []
      if p.1.length = 0 ∨ p.1.length = objects.length then
        sortFallbackParts axis objects
      else p

/-- Recursive builder `BvhNode::build`, with an explicit fuel parameter (the
Rust source recurses without a termination argument; on the empty input it
recurses on two empty halves forever, which this model renders as `none` for
every fuel — see the claim about termination). -/
def buildFuel : Nat → List Prim → Option BvhTree
  | 0, _ => none
  | fuel + 1, objects =>
    let bbox := boxFold objects
    match objects with
    | [o] => some (BvhTree.node (.prim o) (.prim o) bbox)
    | [o1, o2] => some (BvhTree.node (.prim o1) (.prim o2) bbox)
    | _ =>
      let parts := buildParts objects
      do
        let l ← buildFuel fuel parts.1
        let rt ← buildFuel fuel parts.2
        some (BvhTree.node l rt bbox)

/-! ## Containment predicates and monotonicity lemmas -/

/-- The outer interval `o` contains the inner interval `i` (per-axis bound
comparison; with IEEE conventions `Interval::EMPTY = (+∞, -∞)` is contained in
everything). -/
def containsIvl (o i : Interval) : Prop := o.min ≤ i.min ∧ i.max ≤ o.max

instance (o i : Interval) : Decidable (containsIvl o i) := by
  unfold containsIvl; infer_instance

/-- The outer box `o` contains the inner box `b`. -/
def containsBox (o b : Aabb) : Prop :=
  containsIvl o.x b.x ∧ containsIvl o.y b.y ∧ containsIvl o.z b.z

instance (o b : Aabb) : Decidable (containsBox o b) := by
  unfold containsBox; infer_instance

/-- Membership of a point in a box, per-axis `Interval::contains`. -/
def pointInBox (b : Aabb) (pt : Point3) : Bool :=
  b.x.contains pt.x && b.y.contains pt.y && b.z.contains pt.z

theorem containsIvl_refl (i : Interval) : containsIvl i i := ⟨le_refl _, le_refl _⟩

theorem containsIvl_trans {a b c : Interval} (h1 : containsIvl a b)
    (h2 : containsIvl b c) : containsIvl a c :=
  ⟨le_trans h1.1 h2.1, le_trans h2.2 h1.2⟩

theorem XQ.le_of_ble {a b : XQ} (h : XQ.ble a b = true) : a ≤ b := h

theorem XQ.ble_of_le {a b : XQ} (h : a ≤ b) : XQ.ble a b = true := h

theorem XQ.lt_of_blt {a b : XQ} (h : XQ.blt a b = true) : a < b := h

theorem XQ.blt_of_lt {a b : XQ} (h : a < b) : XQ.blt a b = true := h

theorem XQ.sub_fin_le (a : XQ) (d : ℚ) (hd : 0 ≤ d) : XQ.sub a (XQ.fin d) ≤ a := by
  cases a <;> simp [XQ.sub, XQ.neg, XQ.add, XQ.le_def, XQ.ble]
  linarith

theorem XQ.le_add_fin (a : XQ) (d : ℚ) (hd : 0 ≤ d) : a ≤ XQ.add a (XQ.fin d) := by
  cases a <;> simp [XQ.add, XQ.le_def, XQ.ble]
  linarith

/-- Expanding by a nonnegative amount only widens the interval. -/
theorem containsIvl_expand (i : Interval) (d : ℚ) (hd : 0 ≤ d) :
    containsIvl (i.expand d) i := by
  refine ⟨?_, ?_⟩
  · exact XQ.sub_fin_le i.min (d / 2) (by linarith)
  · exact XQ.le_add_fin i.max (d / 2) (by linarith)

/-- The padded box contains the unpadded one. -/
theorem containsBox_pad (b : Aabb) : containsBox (Aabb.pad_to_minimums b) b := by
  unfold Aabb.pad_to_minimums
  refine ⟨?_, ?_, ?_⟩ <;> dsimp only <;> split
  · exact containsIvl_expand _ _ (by norm_num)
  · exact containsIvl_refl _
  · exact containsIvl_expand _ _ (by norm_num)
  · exact containsIvl_refl _
  · exact containsIvl_expand _ _ (by norm_num)
  · exact containsIvl_refl _

theorem from_intervals_min_eq (a b : Interval) :
    (Interval.from_intervals a b).min = min a.min b.min := by
  simp [Interval.from_intervals, min_def]

theorem from_intervals_max_eq (a b : Interval) :
    (Interval.from_intervals a b).max = max a.max b.max := by
  show (if b.max ≤ a.max then a.max else b.max) = max a.max b.max
  rcases le_total a.max b.max with h | h
  · rcases eq_or_lt_of_le h with h' | h'
    · simp [h']
    · rw [if_neg (not_le.mpr h'), max_eq_right h]
  · rw [if_pos h, max_eq_left h]

theorem containsIvl_from_intervals_left (a b : Interval) :
    containsIvl (Interval.from_intervals a b) a := by
  constructor
  · rw [from_intervals_min_eq]; exact min_le_left _ _
  · rw [from_intervals_max_eq]; exact le_max_left _ _

theorem containsIvl_from_intervals_right (a b : Interval) :
    containsIvl (Interval.from_intervals a b) b := by
  constructor
  · rw [from_intervals_min_eq]; exact min_le_right _ _
  · rw [from_intervals_max_eq]; exact le_max_right _ _

/-- The box union contains its left argument. -/
theorem containsBox_from_boxes_left (a b : Aabb) :
    containsBox (Aabb.from_boxes a b) a := by
  have hpad := containsBox_pad
    ⟨Interval.from_intervals a.x b.x, Interval.from_intervals a.y b.y,
     Interval.from_intervals a.z b.z⟩
  exact ⟨containsIvl_trans hpad.1 (containsIvl_from_intervals_left _ _),
    containsIvl_trans hpad.2.1 (containsIvl_from_intervals_left _ _),
    containsIvl_trans hpad.2.2 (containsIvl_from_intervals_left _ _)⟩

/-- The box union contains its right argument. -/
theorem containsBox_from_boxes_right (a b : Aabb) :
    containsBox (Aabb.from_boxes a b) b := by
  have hpad := containsBox_pad
    ⟨Interval.from_intervals a.x b.x, Interval.from_intervals a.y b.y,
     Interval.from_intervals a.z b.z⟩
  exact ⟨containsIvl_trans hpad.1 (containsIvl_from_intervals_right _ _),
    containsIvl_trans hpad.2.1 (containsIvl_from_intervals_right _ _),
    containsIvl_trans hpad.2.2 (containsIvl_from_intervals_right _ _)⟩

theorem containsBox_trans {a b c : Aabb} (h1 : containsBox a b)
    (h2 : containsBox b c) : containsBox a c :=
  ⟨containsIvl_trans h1.1 h2.1, containsIvl_trans h1.2.1 h2.2.1,
   containsIvl_trans h1.2.2 h2.2.2⟩

theorem contains_of_containsIvl {o i : Interval} (h : containsIvl o i)
    {q : ℚ} (hq : i.contains q = true) : o.contains q = true := by
  simp only [Interval.contains, Bool.and_eq_true] at hq ⊢
  constructor
  · exact XQ.ble_of_le (le_trans h.1 (XQ.le_of_ble hq.1))
  · exact XQ.ble_of_le (le_trans (XQ.le_of_ble hq.2) h.2)

theorem pointInBox_of_containsBox {o b : Aabb} (h : containsBox o b)
    {pt : Point3} (hpt : pointInBox b pt = true) : pointInBox o pt = true := by
  simp only [pointInBox, Bool.and_eq_true] at hpt ⊢
  exact ⟨⟨contains_of_containsIvl h.1 hpt.1.1,
    contains_of_containsIvl h.2.1 hpt.1.2⟩,
    contains_of_containsIvl h.2.2 hpt.2⟩

/-! ## Claim C4: box union containment and tightness -/

/-- When no axis of the raw union falls below the padding minimum,
`pad_to_minimums` is the identity. -/
theorem pad_to_minimums_eq_self (b : Aabb)
    (hx : XQ.blt b.x.size (XQ.fin (1 / 10000)) = false)
    (hy : XQ.blt b.y.size (XQ.fin (1 / 10000)) = false)
    (hz : XQ.blt b.z.size (XQ.fin (1 / 10000)) = false) :
    Aabb.pad_to_minimums b = b := by
  unfold Aabb.pad_to_minimums
  simp only [hx, hy, hz, Bool.false_eq_true, if_false]

/-- Claim C4 (amended): `Aabb::from_boxes(A, B)` contains every point
contained by A or by B; and whenever no axis of the per-axis min/max hull has
size below the padding minimum `0.0001`, it is exactly that hull — on each
axis its min is the smaller of the two mins and its max the larger of the two
maxes.  (Without the proviso `pad_to_minimums` expands a degenerate hull axis,
as the counterexample with stored inverted intervals shows.) -/
theorem c4_from_boxes_union_tight (A B : Aabb) (pt : Point3)
    (hx : XQ.blt (Interval.from_intervals A.x B.x).size (XQ.fin (1 / 10000)) = false)
    (hy : XQ.blt (Interval.from_intervals A.y B.y).size (XQ.fin (1 / 10000)) = false)
    (hz : XQ.blt (Interval.from_intervals A.z B.z).size (XQ.fin (1 / 10000)) = false)
    (hpt : pointInBox A pt = true ∨ pointInBox B pt = true) :
    pointInBox (Aabb.from_boxes A B) pt = true ∧
    (Aabb.from_boxes A B).x.min = min A.x.min B.x.min ∧
    (Aabb.from_boxes A B).x.max = max A.x.max B.x.max ∧
    (Aabb.from_boxes A B).y.min = min A.y.min B.y.min ∧
    (Aabb.from_boxes A B).y.max = max A.y.max B.y.max ∧
    (Aabb.from_boxes A B).z.min = min A.z.min B.z.min ∧
    (Aabb.from_boxes A B).z.max = max A.z.max B.z.max := by
  have hplain : Aabb.from_boxes A B =
      ⟨Interval.from_intervals A.x B.x, Interval.from_intervals A.y B.y,
       Interval.from_intervals A.z B.z⟩ := by
    unfold Aabb.from_boxes Aabb.new
    exact pad_to_minimums_eq_self _ hx hy hz
  refine ⟨?_, ?_, ?_, ?_, ?_, ?_, ?_⟩
  · rcases hpt with h | h
    · exact pointInBox_of_containsBox (containsBox_from_boxes_left A B) h
    · exact pointInBox_of_containsBox (containsBox_from_boxes_right A B) h
  · rw [hplain]; exact from_intervals_min_eq A.x B.x
  · rw [hplain]; exact from_intervals_max_eq A.x B.x
  · rw [hplain]; exact from_intervals_min_eq A.y B.y
  · rw [hplain]; exact from_intervals_max_eq A.y B.y
  · rw [hplain]; exact from_intervals_min_eq A.z B.z
  · rw [hplain]; exact from_intervals_max_eq A.z B.z

/-- Box with a stored inverted x interval, as produced by the public
`Aabb::new(Interval::new(1.0, 0.0), ..)` (padding does not repair inversion). -/
def c4A : Aabb :=
  Aabb.new (Interval.new (XQ.fin 1) (XQ.fin 0))
    (Interval.new (XQ.fin 0) (XQ.fin 1)) (Interval.new (XQ.fin 0) (XQ.fin 1))

/-- Claim C4, counterexample: for the (publicly constructible) box `c4A`,
`from_boxes(c4A, c4A)` has an x-min strictly below the smaller of the two
x-mins — `pad_to_minimums` re-expands the degenerate union axis, so the union
is not the per-axis min/max hull. -/
theorem c4_counterexample :
    (Aabb.from_boxes c4A c4A).x.min = XQ.fin (9999 / 10000) ∧
    min c4A.x.min c4A.x.min = XQ.fin (19999 / 20000) ∧
    decide ((Aabb.from_boxes c4A c4A).x.min = min c4A.x.min c4A.x.min) = false := by
  decide

/-- Concrete inputs for the C4 witness: two disjoint unit boxes and a point
inside the first. -/
def c4WA : Aabb := Aabb.from_points (Vec3.new 0 0 0) (Vec3.new 1 1 1)

/-- Second witness box. -/
def c4WB : Aabb := Aabb.from_points (Vec3.new 2 0 0) (Vec3.new 3 1 1)

/-- Witness point. -/
def c4Wpt : Point3 := Vec3.new (1 / 2) (1 / 2) (1 / 2)

/-- Claim C4, witness: the amended theorem applied at two concrete unit boxes
and an interior point. -/
theorem c4_witness :
    pointInBox (Aabb.from_boxes c4WA c4WB) c4Wpt = true ∧
    (Aabb.from_boxes c4WA c4WB).x.min = min c4WA.x.min c4WB.x.min ∧
    (Aabb.from_boxes c4WA c4WB).x.max = max c4WA.x.max c4WB.x.max ∧
    (Aabb.from_boxes c4WA c4WB).y.min = min c4WA.y.min c4WB.y.min ∧
    (Aabb.from_boxes c4WA c4WB).y.max = max c4WA.y.max c4WB.y.max ∧
    (Aabb.from_boxes c4WA c4WB).z.min = min c4WA.z.min c4WB.z.min ∧
    (Aabb.from_boxes c4WA c4WB).z.max = max c4WA.z.max c4WB.z.max :=
  c4_from_boxes_union_tight c4WA c4WB c4Wpt
    (by decide) (by decide)
    (by decide)
    (Or.inl (by decide))

/-! ## Claim C10: sphere radius clamping -/

/-- Claim C10: both sphere constructors store `radius.max(0.0)` — a negative
radius argument is silently clamped to a nonnegative stored radius — while the
cached bounding box is computed from the unclamped radius argument. -/
theorem c10_sphere_radius_clamp (c c2 : Point3) (r : ℚ) (m : Nat) :
    (Sphere.new c r m).radius = max r 0 ∧ 0 ≤ (Sphere.new c r m).radius ∧
    (Sphere.new c r m).bbox =
      Aabb.from_points (c - Vec3.new r r r) (c + Vec3.new r r r) ∧
    (Sphere.new_moving c c2 r m).radius = max r 0 ∧
    0 ≤ (Sphere.new_moving c c2 r m).radius ∧
    (Sphere.new_moving c c2 r m).bbox =
      Aabb.from_boxes (Aabb.from_points (c - Vec3.new r r r) (c + Vec3.new r r r))
        (Aabb.from_points (c2 - Vec3.new r r r) (c2 + Vec3.new r r r)) :=
  ⟨rfl, le_max_right r 0, rfl, rfl, le_max_right r 0, rfl⟩


/-! ## Claim C2: builder termination -/

/-- On the empty input, `BvhNode::build` reaches the SAH scan with an empty
bucket set, falls back to the median split with `mid = 0`, and recurses on two
empty halves: no amount of fuel produces a tree. -/
theorem buildFuel_nil : ∀ fuel : Nat, buildFuel fuel ([] : List Prim) = none := by
  intro fuel
  induction fuel with
  | zero => rfl
  | succ n ih =>
    have h : buildFuel (n + 1) ([] : List Prim) =
        (buildFuel n []).bind fun l =>
          (buildFuel n []).bind fun rt =>
            some (BvhTree.node l rt (boxFold [])) := rfl
    rw [h, ih]
    rfl

/-- Claim C2, counterexample: on the empty primitive sequence the build
recursion never terminates — even with fuel 1000 the fuelled model produces no
tree (each unfuelled recursive call is on the empty list again, not on a
strictly smaller one). -/
theorem c2_counterexample : buildFuel 1000 ([] : List Prim) = none :=
  buildFuel_nil 1000

theorem partitionLoopGo_length (pred : Prim → Bool) :
    ∀ (l ts fs : List Prim),
      (partitionLoopGo pred l ts fs).1.length + (partitionLoopGo pred l ts fs).2.length
        = ts.length + fs.length + l.length := by
  intro l
  induction l with
  | nil => intro ts fs; simp [partitionLoopGo]
  | cons o rest ih =>
    intro ts fs
    by_cases h : pred o = true
    · rw [partitionLoopGo, if_pos h, ih]
      simp [List.length_rotate]
      omega
    · rw [partitionLoopGo, if_neg h, ih]
      simp
      omega

theorem sortFallbackParts_length (axis : Nat) (objects : List Prim) :
    (sortFallbackParts axis objects).1.length = objects.length / 2 ∧
    (sortFallbackParts axis objects).2.length
      = objects.length - objects.length / 2 := by
  have hlen : (objects.insertionSort
      (fun a b => boxCompareLe axis a b = true)).length = objects.length :=
    (List.perm_insertionSort _ _).length_eq
  constructor
  · simp [sortFallbackParts, List.length_take, hlen, Nat.min_eq_left,
      Nat.div_le_self]
  · simp [sortFallbackParts, List.length_drop, hlen]

/-- The split of `buildParts` is either one of the three median fallbacks or
the guarded swap partition. -/
theorem buildParts_cases (objects : List Prim) :
    (∃ axis, buildParts objects = sortFallbackParts axis objects) ∨
    (∃ pred, buildParts objects = partitionLoopGo pred objects [] [] ∧
      (partitionLoopGo pred objects [] []).1.length ≠ 0 ∧
      (partitionLoopGo pred objects [] []).1.length ≠ objects.length) := by
  simp only [buildParts]
  split
  · exact Or.inl ⟨_, rfl⟩
  · split
    · exact Or.inl ⟨_, rfl⟩
    · split
      · exact Or.inl ⟨_, rfl⟩
      · next h =>
        exact Or.inr ⟨_, rfl, (not_or.mp h).1, (not_or.mp h).2⟩

/-- For at least three objects, both halves chosen by `buildParts` are
nonempty and together have the full length. -/
theorem buildParts_length (objects : List Prim) (h3 : 3 ≤ objects.length) :
    (buildParts objects).1.length + (buildParts objects).2.length
      = objects.length ∧
    0 < (buildParts objects).1.length ∧ 0 < (buildParts objects).2.length := by
  rcases buildParts_cases objects with ⟨axis, heq⟩ | ⟨pred, heq, hg1, hg2⟩
  · rw [heq]
    obtain ⟨h1, h2⟩ := sortFallbackParts_length axis objects
    have hhalf2 : objects.length / 2 < objects.length :=
      Nat.div_lt_self (by omega) (by omega)
    refine ⟨by omega, by omega, by omega⟩
  · rw [heq]
    have hsum := partitionLoopGo_length pred objects [] []
    simp only [List.length_nil] at hsum
    refine ⟨by omega, by omega, by omega⟩

/-- Equation of `buildFuel` on inputs of length at least 3. -/
theorem buildFuel_succ_big (n : Nat) (a b c : Prim) (t : List Prim) :
    buildFuel (n + 1) (a :: b :: c :: t) =
      (buildFuel n (buildParts (a :: b :: c :: t)).1).bind fun l =>
        (buildFuel n (buildParts (a :: b :: c :: t)).2).bind fun rt =>
          some (BvhTree.node l rt (boxFold (a :: b :: c :: t))) := rfl

/-- Claim C2 (amended): `BvhNode::build` terminates on every nonempty input
sequence (fuel equal to the item count suffices, because every recursive call
is on a strictly smaller nonempty sublist); on the empty sequence the
recursion does not shrink and build does not terminate (see the
counterexample). -/
theorem c2_build_terminates :
    ∀ (fuel : Nat) (objects : List Prim), objects ≠ [] →
      objects.length ≤ fuel → (buildFuel fuel objects).isSome = true := by
  intro fuel
  induction fuel with
  | zero =>
    intro objects hne hlen
    cases objects with
    | nil => exact absurd rfl hne
    | cons a t => simp at hlen
  | succ n ih =>
    intro objects hne hlen
    match objects with
    | [o] => rfl
    | [o1, o2] => rfl
    | a :: b :: c :: t =>
      have h3 : 3 ≤ (a :: b :: c :: t).length := by
        simp only [List.length_cons]; omega
      obtain ⟨hsum, hp1, hp2⟩ := buildParts_length (a :: b :: c :: t) h3
      have hlen' : (a :: b :: c :: t).length ≤ n + 1 := hlen
      have hne1 : (buildParts (a :: b :: c :: t)).1 ≠ [] :=
        List.ne_nil_of_length_pos hp1
      have hne2 : (buildParts (a :: b :: c :: t)).2 ≠ [] :=
        List.ne_nil_of_length_pos hp2
      have hl1 : (buildParts (a :: b :: c :: t)).1.length ≤ n := by omega
      have hl2 : (buildParts (a :: b :: c :: t)).2.length ≤ n := by omega
      have s1 := ih _ hne1 hl1
      have s2 := ih _ hne2 hl2
      obtain ⟨l, hl⟩ := Option.isSome_iff_exists.mp s1
      obtain ⟨rt, hrt⟩ := Option.isSome_iff_exists.mp s2
      rw [buildFuel_succ_big, hl, hrt]
      rfl

/-- Claim C2, witness: the amended theorem applied to a concrete two-sphere
scene with fuel 2. -/
theorem c2_witness :
    (buildFuel 2
      [(Sphere.new (Vec3.new 0 0 0) 1 0).toPrim,
       (Sphere.new (Vec3.new 3 0 0) 1 1).toPrim]).isSome = true :=
  c2_build_terminates 2
    [(Sphere.new (Vec3.new 0 0 0) 1 0).toPrim,
     (Sphere.new (Vec3.new 3 0 0) 1 1).toPrim]
    (by simp) (by decide)



/-! ## Claim C3: BVH containment invariant -/

/-- Leaf primitives of a (sub)tree, in traversal order. -/
def BvhTree.leaves : BvhTree → List Prim
  | .prim p => [p]
  | .node l r _ => l.leaves ++ r.leaves

/-- Every node's bounding volume contains the bounding volumes of all
primitives beneath it. -/
def NodesContain : BvhTree → Prop
  | .prim _ => True
  | .node l r bx =>
      (∀ p ∈ l.leaves ++ r.leaves, containsBox bx p.bbox) ∧
      NodesContain l ∧ NodesContain r

instance instDecNodesContain : (t : BvhTree) → Decidable (NodesContain t)
  | .prim _ => .isTrue trivial
  | .node l r bx =>
      have _dl := instDecNodesContain l
      have _dr := instDecNodesContain r
      inferInstanceAs (Decidable ((∀ p ∈ l.leaves ++ r.leaves,
        containsBox bx p.bbox) ∧ NodesContain l ∧ NodesContain r))

/-- Per-axis min/max hull of two boxes (the mathematical union bound, without
the constructor's padding). -/
def unionBox (a b : Aabb) : Aabb :=
  ⟨Interval.from_intervals a.x b.x, Interval.from_intervals a.y b.y,
   Interval.from_intervals a.z b.z⟩

/-- Hull of the boxes of a list of primitives. -/
def hullOf (ps : List Prim) : Aabb :=
  ps.foldl (fun acc p => unionBox acc p.bbox) Aabb.EMPTY

theorem XQ.le_inf (a : XQ) : a ≤ XQ.inf := by
  cases a <;> simp [XQ.le_def, XQ.ble]

theorem XQ.ninf_le (a : XQ) : XQ.ninf ≤ a := by
  cases a <;> simp [XQ.le_def, XQ.ble]

theorem containsBox_EMPTY (c : Aabb) : containsBox c Aabb.EMPTY :=
  ⟨⟨XQ.le_inf _, XQ.ninf_le _⟩, ⟨XQ.le_inf _, XQ.ninf_le _⟩,
   ⟨XQ.le_inf _, XQ.ninf_le _⟩⟩

theorem containsBox_unionBox {c a b : Aabb} (ha : containsBox c a)
    (hb : containsBox c b) : containsBox c (unionBox a b) := by
  unfold unionBox containsBox containsIvl
  refine ⟨⟨?_, ?_⟩, ⟨?_, ?_⟩, ⟨?_, ?_⟩⟩
  · rw [from_intervals_min_eq]; exact le_min ha.1.1 hb.1.1
  · rw [from_intervals_max_eq]; exact max_le ha.1.2 hb.1.2
  · rw [from_intervals_min_eq]; exact le_min ha.2.1.1 hb.2.1.1
  · rw [from_intervals_max_eq]; exact max_le ha.2.1.2 hb.2.1.2
  · rw [from_intervals_min_eq]; exact le_min ha.2.2.1 hb.2.2.1
  · rw [from_intervals_max_eq]; exact max_le ha.2.2.2 hb.2.2.2

theorem containsBox_hullOf {c : Aabb} {ps : List Prim}
    (h : ∀ p ∈ ps, containsBox c p.bbox) : containsBox c (hullOf ps) := by
  have general : ∀ (l : List Prim) (seed : Aabb), containsBox c seed →
      (∀ p ∈ l, containsBox c p.bbox) →
      containsBox c (l.foldl (fun acc p => unionBox acc p.bbox) seed) := by
    intro l
    induction l with
    | nil => intro seed hs _; exact hs
    | cons p t ih =>
      intro seed hs hl
      exact ih _ (containsBox_unionBox hs (hl p (by simp)))
        (fun q hq => hl q (by simp [hq]))
  exact general ps Aabb.EMPTY (containsBox_EMPTY c) h

/-- The `from_boxes` fold dominates its seed. -/
theorem foldl_from_boxes_contains_seed (l : List Prim) (b : Aabb) :
    containsBox (l.foldl (fun acc o => Aabb.from_boxes acc o.bbox) b) b := by
  induction l generalizing b with
  | nil => exact ⟨containsIvl_refl _, containsIvl_refl _, containsIvl_refl _⟩
  | cons o t ih =>
    exact containsBox_trans (ih (Aabb.from_boxes b o.bbox))
      (containsBox_from_boxes_left b o.bbox)

/-- The box fold at the top of `BvhNode::build` contains every member's box. -/
theorem boxFold_contains_mem {l : List Prim} {p : Prim} (hp : p ∈ l) :
    containsBox (boxFold l) p.bbox := by
  have general : ∀ (t : List Prim) (b : Aabb), p ∈ t →
      containsBox (t.foldl (fun acc o => Aabb.from_boxes acc o.bbox) b) p.bbox := by
    intro t
    induction t with
    | nil => intro b hb; cases hb
    | cons o rest ih =>
      intro b hb
      rcases List.mem_cons.mp hb with h | h
      · subst h
        exact containsBox_trans
          (foldl_from_boxes_contains_seed rest (Aabb.from_boxes b p.bbox))
          (containsBox_from_boxes_right b p.bbox)
      · exact ih _ h
  exact general l Aabb.EMPTY hp

theorem partitionLoopGo_multiset (pred : Prim → Bool) :
    ∀ (l ts fs : List Prim),
      ((partitionLoopGo pred l ts fs).1 : Multiset Prim)
          + ((partitionLoopGo pred l ts fs).2 : Multiset Prim)
        = (ts : Multiset Prim) + (fs : Multiset Prim) + (l : Multiset Prim) := by
  intro l
  induction l with
  | nil => intro ts fs; simp [partitionLoopGo]
  | cons o rest ih =>
    intro ts fs
    by_cases h : pred o = true
    · rw [partitionLoopGo, if_pos h, ih]
      have hrot : ((fs.rotate 1 : List Prim) : Multiset Prim) = (fs : Multiset Prim) :=
        Multiset.coe_eq_coe.mpr (List.rotate_perm fs 1)
      simp [hrot]
      exact List.Perm.append_left ts List.perm_middle.symm
    · rw [partitionLoopGo, if_neg h, ih]
      simp

theorem partitionLoopGo_perm (pred : Prim → Bool) (l : List Prim) :
    ((partitionLoopGo pred l [] []).1 ++ (partitionLoopGo pred l [] []).2).Perm
      l := by
  rw [← Multiset.coe_eq_coe]
  have := partitionLoopGo_multiset pred l [] []
  simpa using this

theorem sortFallbackParts_perm (axis : Nat) (objects : List Prim) :
    ((sortFallbackParts axis objects).1 ++ (sortFallbackParts axis objects).2).Perm
      objects := by
  unfold sortFallbackParts
  rw [List.take_append_drop]
  exact List.perm_insertionSort _ _

/-- The two halves of `buildParts` are together a permutation of the input. -/
theorem buildParts_perm (objects : List Prim) :
    ((buildParts objects).1 ++ (buildParts objects).2).Perm objects := by
  rcases buildParts_cases objects with ⟨axis, heq⟩ | ⟨pred, heq, _, _⟩
  · rw [heq]; exact sortFallbackParts_perm axis objects
  · rw [heq]
    exact partitionLoopGo_perm pred objects

/-- Soundness of the builder: the leaves of the returned tree are members of
the input list, every node's box contains its leaves' boxes, and the root box
is the `from_boxes` fold of the input. -/
theorem buildFuel_sound :
    ∀ (fuel : Nat) (l : List Prim) (tr : BvhTree), buildFuel fuel l = some tr →
      (∀ p ∈ tr.leaves, p ∈ l) ∧ NodesContain tr ∧ tr.bounding_box = boxFold l := by
  intro fuel
  induction fuel with
  | zero => intro l tr h; cases h
  | succ n ih =>
    intro l tr h
    match l with
    | [] => rw [buildFuel_nil] at h; cases h
    | [o] =>
      have htr : tr = BvhTree.node (.prim o) (.prim o) (boxFold [o]) := by
        cases h; rfl
      subst htr
      refine ⟨?_, ⟨?_, trivial, trivial⟩, rfl⟩
      · intro p hp
        simp [BvhTree.leaves] at hp
        simp [hp]
      · intro p hp
        simp [BvhTree.leaves] at hp
        subst hp
        exact boxFold_contains_mem (by simp)
    | [o1, o2] =>
      have htr : tr = BvhTree.node (.prim o1) (.prim o2) (boxFold [o1, o2]) := by
        cases h; rfl
      subst htr
      refine ⟨?_, ⟨?_, trivial, trivial⟩, rfl⟩
      · intro p hp
        simp [BvhTree.leaves] at hp
        rcases hp with hp | hp <;> simp [hp]
      · intro p hp
        simp [BvhTree.leaves] at hp
        rcases hp with hp | hp <;> subst hp <;>
          exact boxFold_contains_mem (by simp)
    | a :: b :: c :: t =>
      rw [buildFuel_succ_big] at h
      rcases hbind1 : buildFuel n (buildParts (a :: b :: c :: t)).1 with _ | tr1
      · rw [hbind1] at h; cases h
      rcases hbind2 : buildFuel n (buildParts (a :: b :: c :: t)).2 with _ | tr2
      · rw [hbind1, hbind2] at h; cases h
      rw [hbind1, hbind2] at h
      have htr : tr = BvhTree.node tr1 tr2 (boxFold (a :: b :: c :: t)) := by
        cases h; rfl
      subst htr
      obtain ⟨hmem1, hnc1, _⟩ := ih _ _ hbind1
      obtain ⟨hmem2, hnc2, _⟩ := ih _ _ hbind2
      have hmem : ∀ p ∈ tr1.leaves ++ tr2.leaves, p ∈ a :: b :: c :: t := by
        intro p hp
        have hperm := buildParts_perm (a :: b :: c :: t)
        rcases List.mem_append.mp hp with hp | hp
        · exact hperm.subset (List.mem_append.mpr (Or.inl (hmem1 p hp)))
        · exact hperm.subset (List.mem_append.mpr (Or.inr (hmem2 p hp)))
      refine ⟨?_, ⟨?_, hnc1, hnc2⟩, rfl⟩
      · intro p hp
        exact hmem p hp
      · intro p hp
        exact boxFold_contains_mem (hmem p hp)

/-- Claim C3: in every tree produced by `BvhNode::build`, every node's
bounding volume contains the bounding volumes of all primitives beneath that
node, and the root's bounding volume contains the per-axis union hull of all
leaf primitives' bounding volumes. -/
theorem c3_bvh_containment (fuel : Nat) (l : List Prim) (tr : BvhTree)
    (h : buildFuel fuel l = some tr) :
    NodesContain tr ∧ containsBox tr.bounding_box (hullOf tr.leaves) := by
  obtain ⟨hmem, hnc, hroot⟩ := buildFuel_sound fuel l tr h
  refine ⟨hnc, containsBox_hullOf ?_⟩
  intro p hp
  rw [hroot]
  exact boxFold_contains_mem (hmem p hp)

/-- Concrete three-sphere scene for the C3 witness (exercises the SAH bucket
path of the builder). -/
def c3Scene : List Prim :=
  [(Sphere.new (Vec3.new 0 0 0) 1 0).toPrim,
   (Sphere.new (Vec3.new 4 0 0) 1 1).toPrim,
   (Sphere.new (Vec3.new 10 0 0) 1 2).toPrim]

/-- Fallback tree for extracting the witness tree from the builder option. -/
def dummyTree : BvhTree := BvhTree.prim ⟨fun _ _ => none, Aabb.EMPTY⟩

/-- Claim C3, witness: the theorem applied to the tree actually built from the
three-sphere scene. -/
theorem c3_witness :
    NodesContain ((buildFuel 3 c3Scene).getD dummyTree) ∧
    containsBox ((buildFuel 3 c3Scene).getD dummyTree).bounding_box
      (hullOf ((buildFuel 3 c3Scene).getD dummyTree).leaves) :=
  c3_bvh_containment 3 c3Scene ((buildFuel 3 c3Scene).getD dummyTree) rfl



/-! ## Claim C1: BVH traversal refines the linear scan — interface predicates -/

/-- The ray direction has no zero component. -/
def dirNonzero (r : Ray) : Prop := r.dir.x ≠ 0 ∧ r.dir.y ≠ 0 ∧ r.dir.z ≠ 0

/-- Contract of a `dyn Hittable` at a fixed ray (satisfied by the embedded
`Quad` and `Sphere`, see `quad_lawfulAt` / `sphere_lawfulAt`):
any returned hit parameter lies in the closed query window; a `none` answer is
stable under shrinking the window's max; a hit strictly below a shrunk max is
returned unchanged; shrinking the max to (at or below) the hit parameter gives
either no hit or a hit with the same parameter. -/
def LawfulAt (p : Prim) (r : Ray) : Prop :=
  (∀ (m M : XQ) (rcd : HitRecord), p.hitFn r ⟨m, M⟩ = some rcd →
      m ≤ XQ.fin rcd.t ∧ XQ.fin rcd.t ≤ M) ∧
  (∀ (m M M' : XQ), M' ≤ M → p.hitFn r ⟨m, M⟩ = none →
      p.hitFn r ⟨m, M'⟩ = none) ∧
  (∀ (m M M' : XQ) (rcd : HitRecord), p.hitFn r ⟨m, M⟩ = some rcd →
      XQ.fin rcd.t < M' → M' ≤ M → p.hitFn r ⟨m, M'⟩ = some rcd) ∧
  (∀ (m M M' : XQ) (rcd : HitRecord), p.hitFn r ⟨m, M⟩ = some rcd →
      M' ≤ XQ.fin rcd.t → M' ≤ M →
      p.hitFn r ⟨m, M'⟩ = none ∨
      ∃ rcd', p.hitFn r ⟨m, M'⟩ = some rcd' ∧ rcd'.t = rcd.t)

/-- Strict interior of an interval. -/
def strictIvl (i : Interval) (q : ℚ) : Prop :=
  i.min < XQ.fin q ∧ XQ.fin q < i.max

/-- Strict interior of a box. -/
def strictBox (b : Aabb) (pt : Point3) : Prop :=
  strictIvl b.x pt.x ∧ strictIvl b.y pt.y ∧ strictIvl b.z pt.z

instance (i : Interval) (q : ℚ) : Decidable (strictIvl i q) := by
  unfold strictIvl; infer_instance

instance (b : Aabb) (pt : Point3) : Decidable (strictBox b pt) := by
  unfold strictBox; infer_instance

/-- Every hit the primitive reports on this ray lies strictly inside the
primitive's own bounding box (rules out boundary-grazing hits, for which the
slab test is incomplete). -/
def InteriorHits (p : Prim) (r : Ray) : Prop :=
  ∀ (m M : XQ) (rcd : HitRecord), p.hitFn r ⟨m, M⟩ = some rcd →
    strictBox p.bbox (r.at' rcd.t)

/-- Minimum of two optional hit parameters (`none` = no hit). -/
def omin : Option ℚ → Option ℚ → Option ℚ
  | none, b => b
  | some a, none => some a
  | some a, some b => some (min a b)

/-- Hit parameter of a primitive's first hit in a window. -/
def tFirst (p : Prim) (r : Ray) (w : Interval) : Option ℚ :=
  (p.hitFn r w).map (fun rcd => rcd.t)

/-- Closest hit parameter over a list of primitives, each queried on the full
window: the "globally closest intersection inside the queried interval". -/
def bestT (l : List Prim) (r : Ray) (w : Interval) : Option ℚ :=
  l.foldr (fun p acc => omin (tFirst p r w) acc) none

/-- All six bounds of the box are finite. -/
def boxFinite (b : Aabb) : Bool :=
  b.x.min.isFinite && b.x.max.isFinite && b.y.min.isFinite &&
    b.y.max.isFinite && b.z.min.isFinite && b.z.max.isFinite

/-- Every interior node's box of the tree is finite. -/
def BoxesFinite : BvhTree → Prop
  | .prim _ => True
  | .node l r bx => boxFinite bx = true ∧ BoxesFinite l ∧ BoxesFinite r

theorem omin_none_right (a : Option ℚ) : omin a none = a := by
  cases a <;> rfl

theorem omin_assoc (a b c : Option ℚ) :
    omin (omin a b) c = omin a (omin b c) := by
  cases a <;> cases b <;> cases c <;> simp [omin, min_assoc]

theorem omin_comm (a b : Option ℚ) : omin a b = omin b a := by
  cases a <;> cases b <;> simp [omin, min_comm]

theorem omin_idem (a : Option ℚ) : omin a a = a := by
  cases a <;> simp [omin]

theorem XQ.fin_le_fin {a b : ℚ} : (XQ.fin a ≤ XQ.fin b) ↔ a ≤ b := by
  simp [XQ.le_def, XQ.ble]

theorem XQ.fin_lt_fin {a b : ℚ} : (XQ.fin a < XQ.fin b) ↔ a < b := by
  simp [XQ.lt_def, XQ.blt]

theorem Interval.contains_iff {m M : XQ} {t : ℚ} :
    (Interval.new m M).contains t = true ↔ m ≤ XQ.fin t ∧ XQ.fin t ≤ M := by
  simp [Interval.new, Interval.contains, XQ.le_def]

theorem Interval.surrounds_iff {m M : XQ} {t : ℚ} :
    (Interval.new m M).surrounds t = true ↔ m < XQ.fin t ∧ XQ.fin t < M := by
  simp [Interval.new, Interval.surrounds, XQ.lt_def]



/-! ## Claim C1: slab-test completeness for finite boxes and nonzero directions -/

theorem XQ.toFV_fin (q : ℚ) : (XQ.fin q).toFV = FV.fin q := rfl

theorem FV.sub_fin (a b : ℚ) : FV.sub (FV.fin a) (FV.fin b) = FV.fin (a - b) := rfl

theorem FV.mul_fin (a b : ℚ) : FV.mul (FV.fin a) (FV.fin b) = FV.fin (a * b) := rfl

theorem FV.toXQ_fin (q : ℚ) : (FV.fin q).toXQ = XQ.fin q := rfl

theorem updMax (x : XQ) (a : ℚ) :
    (if FV.blt x.toFV (FV.fin a) = true then (FV.fin a).toXQ else x)
      = max x (XQ.fin a) := by
  cases x with
  | ninf =>
    rw [show FV.blt XQ.ninf.toFV (FV.fin a) = true from rfl, if_pos rfl,
      FV.toXQ_fin]
    exact (max_eq_right (XQ.ninf_le _)).symm
  | fin q =>
    rw [XQ.toFV_fin]
    rcases lt_or_le q a with h | h
    · rw [if_pos (by simpa [FV.blt] using h), FV.toXQ_fin]
      exact (max_eq_right (XQ.fin_le_fin.mpr h.le)).symm
    · rw [if_neg (by simpa [FV.blt] using not_lt.mpr h)]
      exact (max_eq_left (XQ.fin_le_fin.mpr h)).symm
  | inf =>
    rw [show FV.blt XQ.inf.toFV (FV.fin a) = false from rfl]
    simp only [Bool.false_eq_true, if_false]
    exact (max_eq_left (XQ.le_inf _)).symm

theorem updMin (x : XQ) (a : ℚ) :
    (if FV.blt (FV.fin a) x.toFV = true then (FV.fin a).toXQ else x)
      = min x (XQ.fin a) := by
  cases x with
  | ninf =>
    rw [show FV.blt (FV.fin a) XQ.ninf.toFV = false from rfl]
    simp only [Bool.false_eq_true, if_false]
    exact (min_eq_left (XQ.ninf_le _)).symm
  | fin q =>
    rw [XQ.toFV_fin]
    rcases lt_or_le a q with h | h
    · rw [if_pos (by simpa [FV.blt] using h), FV.toXQ_fin]
      exact (min_eq_right (XQ.fin_le_fin.mpr h.le)).symm
    · rw [if_neg (by simpa [FV.blt] using not_lt.mpr h)]
      exact (min_eq_left (XQ.fin_le_fin.mpr h)).symm
  | inf =>
    rw [show FV.blt (FV.fin a) XQ.inf.toFV = true from rfl, if_pos rfl,
      FV.toXQ_fin]
    exact (min_eq_right (XQ.le_inf _)).symm

/-- On a finite axis interval with a nonzero direction component, one step of
the slab loop is exactly "raise the window min to the entry parameter, lower
the window max to the exit parameter". -/
theorem slabAxis_eq_fin (lo hi o d : ℚ) (hd : d ≠ 0) (w : Interval) :
    Aabb.slabAxis ⟨XQ.fin lo, XQ.fin hi⟩ o d w =
      ⟨max w.min (XQ.fin (min ((lo - o) * (1 / d)) ((hi - o) * (1 / d)))),
       min w.max (XQ.fin (max ((lo - o) * (1 / d)) ((hi - o) * (1 / d))))⟩ := by
  unfold Aabb.slabAxis
  rw [show FV.inv d = FV.fin (1 / d) from if_neg hd]
  simp only [XQ.toFV_fin, FV.sub_fin, FV.mul_fin]
  rcases lt_or_le ((lo - o) * (1 / d)) ((hi - o) * (1 / d)) with h | h
  · rw [if_pos (by simpa [FV.blt] using h)]
    rw [updMax, updMin, min_eq_left h.le, max_eq_right h.le]
  · rw [if_neg (by simpa [FV.blt] using not_lt.mpr h)]
    rw [updMax, updMin, min_eq_right h, max_eq_left h]

/-- Entry/exit parameters of an axis slab strictly bracket any parameter whose
coordinate is strictly inside the slab. -/
theorem axis_entry_exit (lo hi o d t : ℚ) (hd : d ≠ 0)
    (h1 : lo < o + t * d) (h2 : o + t * d < hi) :
    min ((lo - o) * (1 / d)) ((hi - o) * (1 / d)) < t ∧
    t < max ((lo - o) * (1 / d)) ((hi - o) * (1 / d)) := by
  rcases lt_or_gt_of_ne hd with hneg | hpos
  · have ha : t < (lo - o) * (1 / d) := by
      rw [mul_one_div, lt_div_iff_of_neg hneg]
      linarith
    have hb : (hi - o) * (1 / d) < t := by
      rw [mul_one_div, div_lt_iff_of_neg hneg]
      linarith
    exact ⟨lt_of_le_of_lt (min_le_right _ _) hb,
      lt_of_lt_of_le ha (le_max_left _ _)⟩
  · have ha : (lo - o) * (1 / d) < t := by
      rw [mul_one_div, div_lt_iff₀ hpos]
      linarith
    have hb : t < (hi - o) * (1 / d) := by
      rw [mul_one_div, lt_div_iff₀ hpos]
      linarith
    exact ⟨lt_of_le_of_lt (min_le_left _ _) ha,
      lt_of_lt_of_le hb (le_max_right _ _)⟩

/-- One narrowing stage of the slab test keeps the witness parameter inside
the (still nondegenerate) window. -/
theorem stage_bounds {m M : XQ} {t e f : ℚ} (hm : m ≤ XQ.fin t)
    (hM : XQ.fin t ≤ M) (hmM : m < M) (he : e < t) (hf : t < f) :
    max m (XQ.fin e) ≤ XQ.fin t ∧ XQ.fin t ≤ min M (XQ.fin f) ∧
    max m (XQ.fin e) < min M (XQ.fin f) := by
  have h1 : max m (XQ.fin e) ≤ XQ.fin t := max_le hm (XQ.fin_le_fin.mpr he.le)
  have h2 : XQ.fin t ≤ min M (XQ.fin f) := le_min hM (XQ.fin_le_fin.mpr hf.le)
  refine ⟨h1, h2, ?_⟩
  rcases eq_or_lt_of_le hm with heq | hlt
  · have hmax : max m (XQ.fin e) = XQ.fin t := by
      rw [← heq]
      exact max_eq_left (heq ▸ XQ.fin_le_fin.mpr he.le)
    rw [hmax]
    exact lt_min (heq ▸ hmM) (XQ.fin_lt_fin.mpr hf)
  · exact lt_of_lt_of_le (max_lt hlt (XQ.fin_lt_fin.mpr he)) h2

/-- Completeness of `Aabb::hit` for a finite box and a direction with no zero
component: if some parameter of the (nondegenerate) query window has its ray
point strictly inside the box, the slab test accepts. -/
theorem Aabb_hit_complete (x0 x1 y0 y1 z0 z1 : ℚ) (r : Ray) (w : Interval)
    (t : ℚ) (hdx : r.dir.x ≠ 0) (hdy : r.dir.y ≠ 0) (hdz : r.dir.z ≠ 0)
    (hm : w.min ≤ XQ.fin t) (hM : XQ.fin t ≤ w.max) (hmM : w.min < w.max)
    (hint : strictBox
      ⟨⟨XQ.fin x0, XQ.fin x1⟩, ⟨XQ.fin y0, XQ.fin y1⟩, ⟨XQ.fin z0, XQ.fin z1⟩⟩
      (r.at' t)) :
    Aabb.hit
      ⟨⟨XQ.fin x0, XQ.fin x1⟩, ⟨XQ.fin y0, XQ.fin y1⟩, ⟨XQ.fin z0, XQ.fin z1⟩⟩
      r w = true := by
  obtain ⟨⟨hx1, hx2⟩, ⟨hy1, hy2⟩, ⟨hz1, hz2⟩⟩ := hint
  obtain ⟨e1lt, f1gt⟩ := axis_entry_exit x0 x1 r.orig.x r.dir.x t hdx
    (XQ.fin_lt_fin.mp hx1) (XQ.fin_lt_fin.mp hx2)
  obtain ⟨e2lt, f2gt⟩ := axis_entry_exit y0 y1 r.orig.y r.dir.y t hdy
    (XQ.fin_lt_fin.mp hy1) (XQ.fin_lt_fin.mp hy2)
  obtain ⟨e3lt, f3gt⟩ := axis_entry_exit z0 z1 r.orig.z r.dir.z t hdz
    (XQ.fin_lt_fin.mp hz1) (XQ.fin_lt_fin.mp hz2)
  obtain ⟨s1a, s1b, s1c⟩ := stage_bounds hm hM hmM e1lt f1gt
  obtain ⟨s2a, s2b, s2c⟩ := stage_bounds s1a s1b s1c e2lt f2gt
  obtain ⟨s3a, _, s3c⟩ := stage_bounds s2a s2b s2c e3lt f3gt
  simp only [Aabb.hit, Aabb.axis_interval, Ray.origin, Ray.direction, Vec3.get]
  simp only [slabAxis_eq_fin x0 x1 r.orig.x r.dir.x hdx,
    slabAxis_eq_fin y0 y1 r.orig.y r.dir.y hdy,
    slabAxis_eq_fin z0 z1 r.orig.z r.dir.z hdz]
  rw [if_neg (not_le.mpr s1c)]
  rw [if_neg (not_le.mpr s2c)]
  rw [if_neg (not_le.mpr s3c)]



/-! ## Claim C1: the linear scan computes the minimum first-hit parameter -/

theorem foldr_omin_base (g : Prim → Option ℚ) (l : List Prim) (b : Option ℚ) :
    l.foldr (fun p a => omin (g p) a) b
      = omin (l.foldr (fun p a => omin (g p) a) none) b := by
  induction l with
  | nil => cases b <;> rfl
  | cons p rest ih => simp only [List.foldr, ih, omin_assoc]

theorem omin_eq_none_iff (a b : Option ℚ) :
    omin a b = none ↔ a = none ∧ b = none := by
  cases a <;> cases b <;> simp [omin]

theorem bestT_eq_none_iff (l : List Prim) (r : Ray) (w : Interval) :
    bestT l r w = none ↔ ∀ p ∈ l, tFirst p r w = none := by
  induction l with
  | nil => simp [bestT]
  | cons p rest ih =>
    simp only [bestT, List.foldr, omin_eq_none_iff]
    rw [show rest.foldr (fun p acc => omin (tFirst p r w) acc) none
        = bestT rest r w from rfl, ih]
    simp

/-- Any value of `bestT` lies in the closed query window (from the first law
of `LawfulAt`). -/
theorem bestT_mem (r : Ray) (w : Interval) :
    ∀ (l : List Prim), (∀ p ∈ l, LawfulAt p r) →
      ∀ v, bestT l r w = some v → w.min ≤ XQ.fin v ∧ XQ.fin v ≤ w.max := by
  intro l
  induction l with
  | nil => intro _ v h; cases h
  | cons p rest ih =>
    intro hlaw v h
    have hrest := ih (fun q hq => hlaw q (by simp [hq]))
    have hp := (hlaw p (by simp)).1
    simp only [bestT, List.foldr] at h
    rw [show rest.foldr (fun p acc => omin (tFirst p r w) acc) none
        = bestT rest r w from rfl] at h
    cases ha : tFirst p r w with
    | none =>
      rw [ha] at h
      exact hrest v h
    | some a =>
      have hmem : w.min ≤ XQ.fin a ∧ XQ.fin a ≤ w.max := by
        unfold tFirst at ha
        cases hh : p.hitFn r w with
        | none => rw [hh] at ha; cases ha
        | some rcd =>
          rw [hh] at ha
          cases ha
          exact hp w.min w.max rcd hh
      rw [ha] at h
      cases hb : bestT rest r w with
      | none =>
        rw [hb] at h
        simp [omin] at h
        exact h ▸ hmem
      | some b =>
        rw [hb] at h
        simp only [omin, Option.some.injEq] at h
        obtain ⟨hb1, hb2⟩ := hrest b hb
        rcases min_cases a b with ⟨hmin, _⟩ | ⟨hmin, _⟩ <;>
          rw [hmin] at h <;> subst h
        · exact hmem
        · exact ⟨hb1, hb2⟩

/-- Capping the query window max at a value `c` (itself at most the old max)
does not change the fold once `some c` is already in the accumulator, and the
fold stays at most `c`. -/
theorem fold_cap_eq (r : Ray) (m : XQ) (c : ℚ) (closest : XQ)
    (hc : XQ.fin c ≤ closest) :
    ∀ (l : List Prim), (∀ p ∈ l, LawfulAt p r) →
    (l.foldr (fun p acc => omin (tFirst p r ⟨m, XQ.fin c⟩) acc) (some c)
      = l.foldr (fun p acc => omin (tFirst p r ⟨m, closest⟩) acc) (some c))
    ∧ ∃ v, l.foldr (fun p acc => omin (tFirst p r ⟨m, XQ.fin c⟩) acc) (some c)
        = some v ∧ v ≤ c := by
  intro l
  induction l with
  | nil => exact fun _ => ⟨rfl, c, rfl, le_refl c⟩
  | cons p rest ih =>
    intro hlaw
    obtain ⟨ihEq, v, hv, hvc⟩ := ih (fun q hq => hlaw q (by simp [hq]))
    obtain ⟨law1, law2a, law2b, law2c⟩ := hlaw p (by simp)
    simp only [List.foldr]
    rw [hv] at ihEq ⊢
    rw [← ihEq]
    constructor
    · cases hA : p.hitFn r ⟨m, closest⟩ with
      | none =>
        have hB := law2a m closest (XQ.fin c) hc hA
        simp [tFirst, hA, hB]
      | some rcd =>
        have hbounds := law1 m closest rcd hA
        rcases lt_or_le rcd.t c with hlt | hge
        · have hB := law2b m closest (XQ.fin c) rcd hA
            (XQ.fin_lt_fin.mpr hlt) hc
          simp [tFirst, hA, hB]
        · rcases law2c m closest (XQ.fin c) rcd hA
            (XQ.fin_le_fin.mpr hge) hc with hB | ⟨rcd', hB, ht⟩
          · unfold tFirst
            rw [hA, hB]
            show some v = some (min rcd.t v)
            exact congrArg some (min_eq_right (le_trans hvc hge)).symm
          · simp [tFirst, hA, hB, ht]
    · cases hB : p.hitFn r ⟨m, XQ.fin c⟩ with
      | none => exact ⟨v, by simp [tFirst, hB, omin], hvc⟩
      | some rcd =>
        have hbb := (law1 m (XQ.fin c) rcd hB).2
        refine ⟨min rcd.t v, by unfold tFirst; rw [hB]; rfl, ?_⟩
        exact le_trans (min_le_right _ _) hvc

/-- The scan loop of `HittableList::hit` computes the fold of `omin` over the
primitives' first hits in the current window, provided the accumulator and
`closest_so_far` are in sync. -/
theorem hitScanGo_spec (r : Ray) (m : XQ) :
    ∀ (l : List Prim), (∀ p ∈ l, LawfulAt p r) →
    ∀ (acc : Option HitRecord) (closest : XQ),
      (∀ a, acc = some a → closest = XQ.fin a.t) →
      (hitScanGo r m l acc closest).map (fun rcd => rcd.t)
        = l.foldr (fun p acc2 => omin (tFirst p r ⟨m, closest⟩) acc2)
            (acc.map (fun rcd => rcd.t)) := by
  intro l
  induction l with
  | nil => intro _ acc closest _; rfl
  | cons p rest ih =>
    intro hlaw acc closest hinv
    have hlawr : ∀ q ∈ rest, LawfulAt q r := fun q hq => hlaw q (by simp [hq])
    rw [hitScanGo]
    cases hp : p.hitFn r (Interval.new m closest) with
    | some rcd =>
      have hc : XQ.fin rcd.t ≤ closest :=
        ((hlaw p (by simp)).1 m closest rcd hp).2
      rw [ih hlawr (some rcd) (XQ.fin rcd.t) (by intro a ha; cases ha; rfl)]
      simp only [List.foldr, Option.map_some']
      have hcap := (fold_cap_eq r m rcd.t closest hc rest hlawr).1
      rw [hcap]
      rw [foldr_omin_base (fun q => tFirst q r ⟨m, closest⟩) rest (some rcd.t),
        foldr_omin_base (fun q => tFirst q r ⟨m, closest⟩) rest
          (Option.map (fun rcd => rcd.t) acc)]
      have hAfirst : tFirst p r ⟨m, closest⟩ = some rcd.t := by
        unfold tFirst
        rw [show (⟨m, closest⟩ : Interval) = Interval.new m closest from rfl, hp]
        rfl
      rw [hAfirst]
      cases acc with
      | none =>
        simp only [Option.map_none', omin_none_right]
        rw [omin_comm]
      | some a =>
        have ha := hinv a rfl
        have hca : rcd.t ≤ a.t := by
          have := hc
          rw [ha] at this
          exact XQ.fin_le_fin.mp this
        simp only [Option.map_some']
        rw [omin_comm (some rcd.t)
            (omin (rest.foldr (fun p acc2 => omin (tFirst p r ⟨m, closest⟩) acc2) none)
              (some a.t)),
          omin_assoc,
          show omin (some a.t) (some rcd.t) = some rcd.t from
            congrArg some (min_eq_right hca)]
    | none =>
      have hAfirst : tFirst p r ⟨m, closest⟩ = none := by
        unfold tFirst
        rw [show (⟨m, closest⟩ : Interval) = Interval.new m closest from rfl, hp]
        rfl
      rw [ih hlawr acc closest hinv]
      simp only [List.foldr, hAfirst]
      rfl

/-- `HittableList::hit` returns exactly the minimum first-hit parameter over
its primitive list. -/
theorem HittableList_hit_spec (objects : List Prim) (r : Ray) (w : Interval)
    (hlaw : ∀ p ∈ objects, LawfulAt p r) :
    (HittableList.hit objects r w).map (fun rcd => rcd.t) = bestT objects r w := by
  have h := hitScanGo_spec r w.min objects hlaw none w.max
    (by intro a ha; cases ha)
  simpa [HittableList.hit, bestT] using h



/-! ## Claim C1: the BVH traversal also computes the minimum hit parameter -/

theorem bestT_append (l1 l2 : List Prim) (r : Ray) (w : Interval) :
    bestT (l1 ++ l2) r w = omin (bestT l1 r w) (bestT l2 r w) := by
  unfold bestT
  rw [List.foldr_append]
  exact foldr_omin_base (fun p => tFirst p r w) l1 (bestT l2 r w)

theorem strictBox_mono {o b : Aabb} (h : containsBox o b) {pt : Point3}
    (hs : strictBox b pt) : strictBox o pt := by
  obtain ⟨⟨hx1, hx2⟩, ⟨hy1, hy2⟩, ⟨hz1, hz2⟩⟩ := hs
  exact ⟨⟨lt_of_le_of_lt h.1.1 hx1, lt_of_lt_of_le hx2 h.1.2⟩,
    ⟨lt_of_le_of_lt h.2.1.1 hy1, lt_of_lt_of_le hy2 h.2.1.2⟩,
    ⟨lt_of_le_of_lt h.2.2.1 hz1, lt_of_lt_of_le hz2 h.2.2.2⟩⟩

theorem boxFinite_elim {b : Aabb} (h : boxFinite b = true) :
    ∃ x0 x1 y0 y1 z0 z1 : ℚ,
      b = ⟨⟨XQ.fin x0, XQ.fin x1⟩, ⟨XQ.fin y0, XQ.fin y1⟩,
           ⟨XQ.fin z0, XQ.fin z1⟩⟩ := by
  obtain ⟨⟨xm, xM⟩, ⟨ym, yM⟩, ⟨zm, zM⟩⟩ := b
  simp only [boxFinite, Bool.and_eq_true] at h
  obtain ⟨⟨⟨⟨⟨h1, h2⟩, h3⟩, h4⟩, h5⟩, h6⟩ := h
  cases xm <;> simp [XQ.isFinite] at h1
  cases xM <;> simp [XQ.isFinite] at h2
  cases ym <;> simp [XQ.isFinite] at h3
  cases yM <;> simp [XQ.isFinite] at h4
  cases zm <;> simp [XQ.isFinite] at h5
  cases zM <;> simp [XQ.isFinite] at h6
  exact ⟨_, _, _, _, _, _, rfl⟩

/-- Unfolding equation of the traversal at a node. -/
theorem BvhTree_hit_node (l rr : BvhTree) (bx : Aabb) (r : Ray) (w : Interval) :
    (BvhTree.node l rr bx).hit r w =
      if bx.hit r w = true then
        (match l.hit r w with
          | some rcd => rr.hit r (Interval.new w.min (XQ.fin rcd.t))
          | none => rr.hit r w).or (l.hit r w)
      else none := by
  rw [BvhTree.hit]
  by_cases h : bx.hit r w = true <;> simp [h]

/-- Any hit returned by the traversal lies in the closed query window. -/
theorem BvhTree_hit_within (r : Ray) :
    ∀ (t : BvhTree), (∀ p ∈ t.leaves, LawfulAt p r) →
    ∀ (w : Interval) (rcd : HitRecord), t.hit r w = some rcd →
      w.min ≤ XQ.fin rcd.t ∧ XQ.fin rcd.t ≤ w.max := by
  intro t
  induction t with
  | prim p =>
    intro hlaw w rcd h
    exact (hlaw p (by simp [BvhTree.leaves])).1 w.min w.max rcd h
  | node l rr bx ihl ihr =>
    intro hlaw w rcd h
    have hlawl : ∀ p ∈ l.leaves, LawfulAt p r := fun p hp =>
      hlaw p (by simp [BvhTree.leaves, hp])
    have hlawr : ∀ p ∈ rr.leaves, LawfulAt p r := fun p hp =>
      hlaw p (by simp [BvhTree.leaves, hp])
    rw [BvhTree_hit_node] at h
    by_cases hbox : bx.hit r w = true
    · rw [if_pos hbox] at h
      cases hl : l.hit r w with
      | none =>
        simp only [hl] at h
        cases hr : rr.hit r w with
        | none => rw [hr] at h; cases h
        | some s =>
          rw [hr] at h
          simp only [Option.or] at h
          cases h
          exact ihr hlawr w rcd hr
      | some rcL =>
        simp only [hl] at h
        cases hr : rr.hit r (Interval.new w.min (XQ.fin rcL.t)) with
        | none =>
          rw [hr] at h
          simp only [Option.or] at h
          cases h
          exact ihl hlawl w _ hl
        | some s =>
          rw [hr] at h
          simp only [Option.or] at h
          cases h
          obtain ⟨hs1, hs2⟩ := ihr hlawr (Interval.new w.min (XQ.fin rcL.t)) rcd hr
          obtain ⟨hl1, hl2⟩ := ihl hlawl w rcL hl
          exact ⟨hs1, le_trans hs2 hl2⟩
    · rw [if_neg hbox] at h
      cases h

/-- The BVH traversal returns exactly the minimum first-hit parameter over its
leaves, for valid trees, lawful interior-hitting primitives, a direction with
no zero component and a nondegenerate window. -/
theorem BvhTree_hit_spec (r : Ray) (hd : dirNonzero r) :
    ∀ (t : BvhTree), NodesContain t → BoxesFinite t →
      (∀ p ∈ t.leaves, LawfulAt p r) → (∀ p ∈ t.leaves, InteriorHits p r) →
      ∀ (w : Interval), w.min < w.max →
        (t.hit r w).map (fun rcd => rcd.t) = bestT t.leaves r w := by
  obtain ⟨hdx, hdy, hdz⟩ := hd
  intro t
  induction t with
  | prim p =>
    intro _ _ _ _ w _
    simp [BvhTree.hit, BvhTree.leaves, bestT, tFirst, omin_none_right]
  | node l rr bx ihl ihr =>
    intro hnc hbf hlaw hint w hw
    obtain ⟨hcont, hncl, hncr⟩ := hnc
    obtain ⟨hbfx, hbfl, hbfr⟩ := hbf
    have hlawl : ∀ p ∈ l.leaves, LawfulAt p r := fun p hp =>
      hlaw p (by simp [BvhTree.leaves, hp])
    have hlawr : ∀ p ∈ rr.leaves, LawfulAt p r := fun p hp =>
      hlaw p (by simp [BvhTree.leaves, hp])
    have hintl : ∀ p ∈ l.leaves, InteriorHits p r := fun p hp =>
      hint p (by simp [BvhTree.leaves, hp])
    have hintr : ∀ p ∈ rr.leaves, InteriorHits p r := fun p hp =>
      hint p (by simp [BvhTree.leaves, hp])
    have hleaves : (BvhTree.node l rr bx).leaves = l.leaves ++ rr.leaves := rfl
    rw [BvhTree_hit_node, hleaves, bestT_append]
    by_cases hbox : bx.hit r w = true
    · rw [if_pos hbox]
      cases hl : l.hit r w with
      | none =>
        simp only [hl]
        have ihlv := ihl hncl hbfl hlawl hintl w hw
        rw [hl] at ihlv
        rw [← ihlv]
        have ihrv := ihr hncr hbfr hlawr hintr w hw
        rw [← ihrv]
        cases hr : rr.hit r w <;> simp [hr, omin, Option.or]
      | some rcL =>
        simp only [hl]
        obtain ⟨hL1, hL2⟩ := BvhTree_hit_within r l hlawl w rcL hl
        have ihlv := ihl hncl hbfl hlawl hintl w hw
        rw [hl] at ihlv
        simp only [Option.map_some'] at ihlv
        rw [← ihlv]
        rcases eq_or_lt_of_le hL1 with heq | hlt
        · -- degenerate narrowed window: every admissible parameter equals rcL.t
          have hres : (Option.or
              (rr.hit r (Interval.new w.min (XQ.fin rcL.t))) (some rcL)).map
                (fun rcd => rcd.t) = some rcL.t := by
            cases hr : rr.hit r (Interval.new w.min (XQ.fin rcL.t)) with
            | none => rfl
            | some s =>
              obtain ⟨hs1, hs2⟩ := BvhTree_hit_within r rr hlawr
                (Interval.new w.min (XQ.fin rcL.t)) s hr
              have hs1' : XQ.fin rcL.t ≤ XQ.fin s.t := by
                have h0 : w.min ≤ XQ.fin s.t := hs1
                rw [heq] at h0
                exact h0
              have hs2' : XQ.fin s.t ≤ XQ.fin rcL.t := hs2
              have hst : s.t = rcL.t :=
                le_antisymm (XQ.fin_le_fin.mp hs2') (XQ.fin_le_fin.mp hs1')
              simp only [Option.or, Option.map_some']
              rw [hst]
          rw [hres]
          cases hbr : bestT rr.leaves r w with
          | none => rfl
          | some v =>
            obtain ⟨hv1, _⟩ := bestT_mem r w rr.leaves hlawr v hbr
            rw [heq] at hv1
            show some rcL.t = some (min rcL.t v)
            rw [min_eq_left (XQ.fin_le_fin.mp hv1)]
        · -- nondegenerate narrowed window: use the induction hypothesis
          have ihrv := ihr hncr hbfr hlawr hintr
            (Interval.new w.min (XQ.fin rcL.t)) hlt
          have hcap : rr.leaves.foldr (fun p acc =>
                omin (tFirst p r (Interval.new w.min (XQ.fin rcL.t))) acc)
                (some rcL.t)
              = rr.leaves.foldr (fun p acc => omin (tFirst p r w) acc)
                (some rcL.t) :=
            (fold_cap_eq r w.min rcL.t w.max hL2 rr.leaves hlawr).1
          have e1 : omin (bestT rr.leaves r (Interval.new w.min (XQ.fin rcL.t)))
                (some rcL.t)
              = rr.leaves.foldr (fun p acc =>
                  omin (tFirst p r (Interval.new w.min (XQ.fin rcL.t))) acc)
                  (some rcL.t) :=
            (foldr_omin_base
              (fun q => tFirst q r (Interval.new w.min (XQ.fin rcL.t)))
              rr.leaves (some rcL.t)).symm
          have e3 : rr.leaves.foldr (fun p acc => omin (tFirst p r w) acc)
                (some rcL.t)
              = omin (bestT rr.leaves r w) (some rcL.t) :=
            foldr_omin_base (fun q => tFirst q r w) rr.leaves (some rcL.t)
          have hstar : omin (bestT rr.leaves r (Interval.new w.min (XQ.fin rcL.t)))
              (some rcL.t) = omin (bestT rr.leaves r w) (some rcL.t) :=
            e1.trans (hcap.trans e3)
          have hres : (Option.or
              (rr.hit r (Interval.new w.min (XQ.fin rcL.t))) (some rcL)).map
                (fun rcd => rcd.t)
              = omin (bestT rr.leaves r (Interval.new w.min (XQ.fin rcL.t)))
                  (some rcL.t) := by
            cases hr : rr.hit r (Interval.new w.min (XQ.fin rcL.t)) with
            | none =>
              rw [hr] at ihrv
              rw [← ihrv]
              rfl
            | some s =>
              rw [hr] at ihrv
              rw [← ihrv]
              obtain ⟨_, hs2⟩ := BvhTree_hit_within r rr hlawr
                (Interval.new w.min (XQ.fin rcL.t)) s hr
              have hs2' : XQ.fin s.t ≤ XQ.fin rcL.t := hs2
              show some s.t = some (min s.t rcL.t)
              rw [min_eq_left (XQ.fin_le_fin.mp hs2')]
          rw [hres, hstar]
          exact omin_comm _ _
    · -- the node box rejected: no leaf can have a hit in this window
      rw [if_neg hbox]
      have hnone : ∀ p ∈ l.leaves ++ rr.leaves, tFirst p r w = none := by
        intro p hp
        cases htf : p.hitFn r w with
        | none => simp [tFirst, htf]
        | some rcd =>
          have hpmem : p ∈ (BvhTree.node l rr bx).leaves := by
            rw [hleaves]; exact hp
          obtain ⟨hm1, hm2⟩ := (hlaw p hpmem).1 w.min w.max rcd htf
          have hstrict : strictBox p.bbox (r.at' rcd.t) :=
            (hint p hpmem) w.min w.max rcd htf
          have hbig : strictBox bx (r.at' rcd.t) :=
            strictBox_mono (hcont p hp) hstrict
          obtain ⟨x0, x1, y0, y1, z0, z1, hbxeq⟩ := boxFinite_elim hbfx
          rw [hbxeq] at hbig
          have hacc := Aabb_hit_complete x0 x1 y0 y1 z0 z1 r w rcd.t
            hdx hdy hdz hm1 hm2 hw hbig
          rw [← hbxeq] at hacc
          exact absurd hacc hbox
      have h1 : bestT l.leaves r w = none := by
        rw [bestT_eq_none_iff]
        intro p hp
        exact hnone p (List.mem_append.mpr (Or.inl hp))
      have h2 : bestT rr.leaves r w = none := by
        rw [bestT_eq_none_iff]
        intro p hp
        exact hnone p (List.mem_append.mpr (Or.inr hp))
      rw [h1, h2]
      rfl


/-! ## Claim C1: the builder preserves the minimum hit parameter -/

/-- `bestT` is invariant under permutation of the primitive list. -/
theorem bestT_perm (r : Ray) (w : Interval) {l1 l2 : List Prim}
    (h : l1.Perm l2) : bestT l1 r w = bestT l2 r w := by
  unfold bestT
  induction h with
  | nil => rfl
  | cons x _ ih => simp only [List.foldr]; rw [ih]
  | swap x y l =>
    simp only [List.foldr]
    rw [← omin_assoc, ← omin_assoc, omin_comm (tFirst y r w) (tFirst x r w)]
  | trans _ _ ih1 ih2 => rw [ih1, ih2]

theorem XQ.isFinite_sub_fin {a : XQ} (c : ℚ) (h : a.isFinite = true) :
    (XQ.sub a (XQ.fin c)).isFinite = true := by
  cases a <;> simp_all [XQ.sub, XQ.add, XQ.neg, XQ.isFinite]

theorem XQ.isFinite_add_fin {a : XQ} (c : ℚ) (h : a.isFinite = true) :
    (XQ.add a (XQ.fin c)).isFinite = true := by
  cases a <;> simp_all [XQ.add, XQ.isFinite]

/-- One padded axis of `pad_to_minimums` keeps finite bounds finite. -/
theorem ivl_pad_finite (i : Interval) (d : ℚ)
    (h1 : i.min.isFinite = true) (h2 : i.max.isFinite = true) :
    (if XQ.blt i.size (XQ.fin d) then i.expand d else i).min.isFinite = true
    ∧ (if XQ.blt i.size (XQ.fin d) then i.expand d else i).max.isFinite
        = true := by
  by_cases hc : XQ.blt i.size (XQ.fin d) = true
  · rw [if_pos hc]
    exact ⟨XQ.isFinite_sub_fin _ h1, XQ.isFinite_add_fin _ h2⟩
  · rw [if_neg hc]
    exact ⟨h1, h2⟩

/-- `pad_to_minimums` keeps a finite box finite. -/
theorem pad_finite (b : Aabb) (h : boxFinite b = true) :
    boxFinite (Aabb.pad_to_minimums b) = true := by
  simp only [boxFinite, Bool.and_eq_true] at h ⊢
  obtain ⟨⟨⟨⟨⟨h1, h2⟩, h3⟩, h4⟩, h5⟩, h6⟩ := h
  simp only [Aabb.pad_to_minimums]
  obtain ⟨hx1, hx2⟩ := ivl_pad_finite b.x (1 / 10000) h1 h2
  obtain ⟨hy1, hy2⟩ := ivl_pad_finite b.y (1 / 10000) h3 h4
  obtain ⟨hz1, hz2⟩ := ivl_pad_finite b.z (1 / 10000) h5 h6
  exact ⟨⟨⟨⟨⟨hx1, hx2⟩, hy1⟩, hy2⟩, hz1⟩, hz2⟩

/-- The per-axis hull of a finite-or-empty interval with a finite interval has
finite bounds. -/
theorem from_intervals_finite (a b : Interval)
    (ha : (a.min.isFinite = true ∧ a.max.isFinite = true) ∨ a = Interval.EMPTY)
    (hb1 : b.min.isFinite = true) (hb2 : b.max.isFinite = true) :
    (Interval.from_intervals a b).min.isFinite = true ∧
    (Interval.from_intervals a b).max.isFinite = true := by
  unfold Interval.from_intervals
  rcases ha with ⟨ha1, ha2⟩ | rfl
  · constructor
    · show (if a.min ≤ b.min then a.min else b.min).isFinite = true
      split
      · exact ha1
      · exact hb1
    · show (if b.max ≤ a.max then a.max else b.max).isFinite = true
      split
      · exact ha2
      · exact hb2
  · cases hbm : b.min with
    | fin c =>
      cases hbM : b.max with
      | fin e =>
        constructor
        · show (if XQ.inf ≤ XQ.fin c then XQ.inf else XQ.fin c).isFinite = true
          rw [if_neg (by simp [XQ.le_def, XQ.ble])]
          rfl
        · show (if XQ.fin e ≤ XQ.ninf then XQ.ninf else XQ.fin e).isFinite
            = true
          rw [if_neg (by simp [XQ.le_def, XQ.ble])]
          rfl
      | ninf => rw [hbM] at hb2; exact absurd hb2 (by simp [XQ.isFinite])
      | inf => rw [hbM] at hb2; exact absurd hb2 (by simp [XQ.isFinite])
    | ninf => rw [hbm] at hb1; exact absurd hb1 (by simp [XQ.isFinite])
    | inf => rw [hbm] at hb1; exact absurd hb1 (by simp [XQ.isFinite])

/-- `from_boxes` of a finite-or-EMPTY box with a finite box is finite. -/
theorem from_boxes_finite (a b : Aabb)
    (ha : boxFinite a = true ∨ a = Aabb.EMPTY) (hb : boxFinite b = true) :
    boxFinite (Aabb.from_boxes a b) = true := by
  simp only [boxFinite, Bool.and_eq_true] at hb
  obtain ⟨⟨⟨⟨⟨hb1, hb2⟩, hb3⟩, hb4⟩, hb5⟩, hb6⟩ := hb
  have hax : (a.x.min.isFinite = true ∧ a.x.max.isFinite = true)
      ∨ a.x = Interval.EMPTY := by
    rcases ha with hfa | rfl
    · simp only [boxFinite, Bool.and_eq_true] at hfa
      exact Or.inl ⟨hfa.1.1.1.1.1, hfa.1.1.1.1.2⟩
    · exact Or.inr rfl
  have hay : (a.y.min.isFinite = true ∧ a.y.max.isFinite = true)
      ∨ a.y = Interval.EMPTY := by
    rcases ha with hfa | rfl
    · simp only [boxFinite, Bool.and_eq_true] at hfa
      exact Or.inl ⟨hfa.1.1.1.2, hfa.1.1.2⟩
    · exact Or.inr rfl
  have haz : (a.z.min.isFinite = true ∧ a.z.max.isFinite = true)
      ∨ a.z = Interval.EMPTY := by
    rcases ha with hfa | rfl
    · simp only [boxFinite, Bool.and_eq_true] at hfa
      exact Or.inl ⟨hfa.1.2, hfa.2⟩
    · exact Or.inr rfl
  unfold Aabb.from_boxes Aabb.new
  apply pad_finite
  simp only [boxFinite, Bool.and_eq_true]
  obtain ⟨gx1, gx2⟩ := from_intervals_finite a.x b.x hax hb1 hb2
  obtain ⟨gy1, gy2⟩ := from_intervals_finite a.y b.y hay hb3 hb4
  obtain ⟨gz1, gz2⟩ := from_intervals_finite a.z b.z haz hb5 hb6
  exact ⟨⟨⟨⟨⟨gx1, gx2⟩, gy1⟩, gy2⟩, gz1⟩, gz2⟩

theorem foldl_from_boxes_finite (l : List Prim) :
    (∀ p ∈ l, boxFinite p.bbox = true) → ∀ acc, boxFinite acc = true →
      boxFinite (l.foldl (fun b o => Aabb.from_boxes b o.bbox) acc)
        = true := by
  induction l with
  | nil => intro _ acc h; exact h
  | cons p rest ih =>
    intro hl acc hacc
    simp only [List.foldl]
    exact ih (fun q hq => hl q (by simp [hq])) _
      (from_boxes_finite acc p.bbox (Or.inl hacc) (hl p (by simp)))

/-- The box fold over a non-empty list of finite boxes is finite (the first
fold step leaves `Aabb::EMPTY` behind). -/
theorem boxFold_finite (l : List Prim)
    (hl : ∀ p ∈ l, boxFinite p.bbox = true) (hne : l ≠ []) :
    boxFinite (boxFold l) = true := by
  match l with
  | [] => exact absurd rfl hne
  | p :: rest =>
    unfold boxFold
    simp only [List.foldl]
    exact foldl_from_boxes_finite rest (fun q hq => hl q (by simp [hq])) _
      (from_boxes_finite Aabb.EMPTY p.bbox (Or.inr rfl) (hl p (by simp)))

/-- Every node box in a tree built from finite-box primitives is finite. -/
theorem buildFuel_finite :
    ∀ (fuel : Nat) (l : List Prim), (∀ p ∈ l, boxFinite p.bbox = true) →
      ∀ tr, buildFuel fuel l = some tr → BoxesFinite tr := by
  intro fuel
  induction fuel with
  | zero => intro l _ tr h; cases h
  | succ n ih =>
    intro l hfin tr h
    match l with
    | [] => rw [buildFuel_nil] at h; cases h
    | [o] =>
      have htr : tr = BvhTree.node (.prim o) (.prim o) (boxFold [o]) := by
        cases h; rfl
      subst htr
      exact ⟨boxFold_finite [o] hfin (by simp), trivial, trivial⟩
    | [o1, o2] =>
      have htr : tr = BvhTree.node (.prim o1) (.prim o2) (boxFold [o1, o2]) := by
        cases h; rfl
      subst htr
      exact ⟨boxFold_finite [o1, o2] hfin (by simp), trivial, trivial⟩
    | a :: b :: c :: t =>
      rw [buildFuel_succ_big] at h
      rcases hb1 : buildFuel n (buildParts (a :: b :: c :: t)).1 with _ | tr1
      · rw [hb1] at h; cases h
      rcases hb2 : buildFuel n (buildParts (a :: b :: c :: t)).2 with _ | tr2
      · rw [hb1, hb2] at h; cases h
      rw [hb1, hb2] at h
      have htr : tr = BvhTree.node tr1 tr2 (boxFold (a :: b :: c :: t)) := by
        cases h; rfl
      subst htr
      have hperm := buildParts_perm (a :: b :: c :: t)
      have hfin1 : ∀ p ∈ (buildParts (a :: b :: c :: t)).1,
          boxFinite p.bbox = true := fun p hp =>
        hfin p (hperm.subset (List.mem_append.mpr (Or.inl hp)))
      have hfin2 : ∀ p ∈ (buildParts (a :: b :: c :: t)).2,
          boxFinite p.bbox = true := fun p hp =>
        hfin p (hperm.subset (List.mem_append.mpr (Or.inr hp)))
      exact ⟨boxFold_finite _ hfin (by simp), ih _ hfin1 _ hb1, ih _ hfin2 _ hb2⟩

/-- The leaves of a built tree have the same minimum hit parameter as the
input list (the single-object case duplicates its object, which `omin`
absorbs; all other cases only permute the input). -/
theorem buildFuel_bestT :
    ∀ (fuel : Nat) (l : List Prim) (tr : BvhTree), buildFuel fuel l = some tr →
      ∀ (r : Ray) (w : Interval), bestT tr.leaves r w = bestT l r w := by
  intro fuel
  induction fuel with
  | zero => intro l tr h; cases h
  | succ n ih =>
    intro l tr h r w
    match l with
    | [] => rw [buildFuel_nil] at h; cases h
    | [o] =>
      have htr : tr = BvhTree.node (.prim o) (.prim o) (boxFold [o]) := by
        cases h; rfl
      subst htr
      show bestT [o, o] r w = bestT [o] r w
      unfold bestT
      simp only [List.foldr]
      rw [omin_none_right, omin_idem]
    | [o1, o2] =>
      have htr : tr = BvhTree.node (.prim o1) (.prim o2) (boxFold [o1, o2]) := by
        cases h; rfl
      subst htr
      rfl
    | a :: b :: c :: t =>
      rw [buildFuel_succ_big] at h
      rcases hb1 : buildFuel n (buildParts (a :: b :: c :: t)).1 with _ | tr1
      · rw [hb1] at h; cases h
      rcases hb2 : buildFuel n (buildParts (a :: b :: c :: t)).2 with _ | tr2
      · rw [hb1, hb2] at h; cases h
      rw [hb1, hb2] at h
      have htr : tr = BvhTree.node tr1 tr2 (boxFold (a :: b :: c :: t)) := by
        cases h; rfl
      subst htr
      have hleq : (BvhTree.node tr1 tr2 (boxFold (a :: b :: c :: t))).leaves
          = tr1.leaves ++ tr2.leaves := rfl
      rw [hleq, bestT_append, ih _ _ hb1 r w, ih _ _ hb2 r w, ← bestT_append]
      exact bestT_perm r w (buildParts_perm _)


/-! ## Claim C1: lawfulness of the embedded quad, final theorem, witness -/

/-- Plane denominator of `Quad::hit` (window-independent). -/
def qdenom (qd : Quad) (r : Ray) : ℚ := dot qd.normal r.direction

/-- Plane-intersection parameter of `Quad::hit` (window-independent). -/
def qt (qd : Quad) (r : Ray) : ℚ :=
  (qd.d - dot qd.normal r.origin) / qdenom qd r

/-- Planar hit-point vector of `Quad::hit`. -/
def qplanar (qd : Quad) (r : Ray) : Vec3 := r.at' (qt qd r) - qd.q

/-- First planar coordinate of `Quad::hit`. -/
def qalpha (qd : Quad) (r : Ray) : ℚ := dot qd.w (cross (qplanar qd r) qd.v)

/-- Second planar coordinate of `Quad::hit`. -/
def qbeta (qd : Quad) (r : Ray) : ℚ := dot qd.w (cross qd.u (qplanar qd r))

/-- The hit record `Quad::hit` returns on success (window-independent). -/
def qrec (qd : Quad) (r : Ray) : HitRecord :=
  { HitRecord.new (r.at' (qt qd r)) (qt qd r) r qd.normal qd.mat 0 0 with
      u := qalpha qd r, v := qbeta qd r }

/-- `Quad::hit` depends on the query window only through the closed
containment test of its fixed plane parameter. -/
theorem quad_hit_char (qd : Quad) (r : Ray) (w : Interval) :
    Quad.hit qd r w =
      if (¬ |qdenom qd r| < 1 / 10 ^ 8)
          ∧ Quad.is_interior (qalpha qd r) (qbeta qd r) = true
          ∧ w.contains (qt qd r) = true
      then some (qrec qd r) else none := by
  have e : Quad.hit qd r w =
      (if |qdenom qd r| < 1 / 10 ^ 8 then none
       else if !(w.contains (qt qd r)) then none
       else if !(Quad.is_interior (qalpha qd r) (qbeta qd r)) then none
       else some (qrec qd r)) := rfl
  rw [e]
  by_cases h1 : |qdenom qd r| < 1 / 10 ^ 8
  · rw [if_pos h1, if_neg (fun hcon => hcon.1 h1)]
  · rw [if_neg h1]
    by_cases h2 : w.contains (qt qd r) = true
    · rw [if_neg (by simp [h2])]
      by_cases h3 : Quad.is_interior (qalpha qd r) (qbeta qd r) = true
      · rw [if_neg (by simp [h3]), if_pos ⟨h1, h3, h2⟩]
      · have h3' : Quad.is_interior (qalpha qd r) (qbeta qd r) = false := by
          cases hv : Quad.is_interior (qalpha qd r) (qbeta qd r)
          · rfl
          · exact absurd hv h3
        rw [if_pos (by simp [h3']), if_neg (fun hcon => h3 hcon.2.1)]
    · have h2' : w.contains (qt qd r) = false := by
        cases hv : w.contains (qt qd r)
        · rfl
        · exact absurd hv h2
      rw [if_pos (by simp [h2']), if_neg (fun hcon => h2 hcon.2.2)]

/-- Every embedded quad satisfies the `dyn Hittable` window contract on every
ray. -/
theorem quad_lawfulAt (qd : Quad) (r : Ray) : LawfulAt qd.toPrim r := by
  refine ⟨?_, ?_, ?_, ?_⟩
  · intro m M rcd h
    have h' : Quad.hit qd r (Interval.new m M) = some rcd := h
    rw [quad_hit_char] at h'
    split at h'
    case isTrue hcond =>
      cases h'
      exact Interval.contains_iff.mp hcond.2.2
    case isFalse hcond => cases h'
  · intro m M M' hMM h
    have h' : Quad.hit qd r (Interval.new m M) = none := h
    show Quad.hit qd r (Interval.new m M') = none
    rw [quad_hit_char] at h'
    rw [quad_hit_char]
    split at h'
    case isTrue hcond => cases h'
    case isFalse hcond =>
      rw [if_neg (fun hcon => hcond ⟨hcon.1, hcon.2.1,
        Interval.contains_iff.mpr ⟨(Interval.contains_iff.mp hcon.2.2).1,
          le_trans (Interval.contains_iff.mp hcon.2.2).2 hMM⟩⟩)]
  · intro m M M' rcd h hlt _
    have h' : Quad.hit qd r (Interval.new m M) = some rcd := h
    show Quad.hit qd r (Interval.new m M') = some rcd
    rw [quad_hit_char] at h'
    rw [quad_hit_char]
    split at h'
    case isTrue hcond =>
      cases h'
      have hC : (Interval.new m M').contains (qt qd r) = true :=
        Interval.contains_iff.mpr
          ⟨(Interval.contains_iff.mp hcond.2.2).1, le_of_lt hlt⟩
      rw [if_pos ⟨hcond.1, hcond.2.1, hC⟩]
    case isFalse hcond => cases h'
  · intro m M M' rcd h hle _
    have h' : Quad.hit qd r (Interval.new m M) = some rcd := h
    rw [quad_hit_char] at h'
    split at h'
    case isTrue hcond =>
      cases h'
      by_cases hC : (Interval.new m M').contains (qt qd r) = true
      · refine Or.inr ⟨qrec qd r, ?_, rfl⟩
        show Quad.hit qd r (Interval.new m M') = some (qrec qd r)
        rw [quad_hit_char, if_pos ⟨hcond.1, hcond.2.1, hC⟩]
      · refine Or.inl ?_
        show Quad.hit qd r (Interval.new m M') = none
        rw [quad_hit_char, if_neg (fun hcon => hC hcon.2.2)]
    case isFalse hcond => cases h'

/-- A quad whose unique plane hit point lies strictly inside its own box has
only interior hits. -/
theorem quad_interiorHits (qd : Quad) (r : Ray)
    (h : strictBox qd.bbox (r.at' (qt qd r))) : InteriorHits qd.toPrim r := by
  intro m M rcd hh
  have hh' : Quad.hit qd r (Interval.new m M) = some rcd := hh
  rw [quad_hit_char] at hh'
  split at hh'
  · cases hh'
    exact h
  · cases hh'

/-- Claim C1 (amended): for a ray whose direction has no zero component, over
primitives all of whose hits are strictly interior to their own (finite)
bounding boxes, and for a nondegenerate query window, `BvhNode::hit` on any
tree the builder returns for the collection computes exactly the same closest
hit parameter as the linear scan `HittableList::hit` over the same collection,
and that parameter is the global minimum first-hit parameter (`bestT`) over
the collection in the queried interval.  (The unrestricted original claim is
refuted by `c1_counterexample`: an axis-parallel ray whose origin coordinate
lies exactly on a box boundary is rejected by the slab test through its
`0 * inf` arithmetic, so the BVH misses a hit the linear scan reports.) -/
theorem c1_bvh_equals_scan (fuel : Nat) (objects : List Prim) (tr : BvhTree)
    (hbuild : buildFuel fuel objects = some tr)
    (r : Ray) (hd : dirNonzero r)
    (hlaw : ∀ p ∈ objects, LawfulAt p r)
    (hint : ∀ p ∈ objects, InteriorHits p r)
    (hfin : ∀ p ∈ objects, boxFinite p.bbox = true)
    (w : Interval) (hw : w.min < w.max) :
    (tr.hit r w).map (fun rcd => rcd.t)
        = (HittableList.hit objects r w).map (fun rcd => rcd.t)
    ∧ (HittableList.hit objects r w).map (fun rcd => rcd.t)
        = bestT objects r w := by
  obtain ⟨hmem, hnc, _⟩ := buildFuel_sound fuel objects tr hbuild
  have hlawT : ∀ p ∈ tr.leaves, LawfulAt p r := fun p hp => hlaw p (hmem p hp)
  have hintT : ∀ p ∈ tr.leaves, InteriorHits p r := fun p hp =>
    hint p (hmem p hp)
  have hbf := buildFuel_finite fuel objects hfin tr hbuild
  have h1 := BvhTree_hit_spec r hd tr hnc hbf hlawT hintT w hw
  have h2 := buildFuel_bestT fuel objects tr hbuild r w
  have h3 := HittableList_hit_spec objects r w hlaw
  exact ⟨by rw [h1, h2, h3], h3⟩

/-- Counterexample quad for the unrestricted claim: unit square at `z = 0`. -/
def c1xQuad : Quad :=
  Quad.new (Vec3.new 0 0 0) (Vec3.new 1 0 0) (Vec3.new 0 1 0) 7

/-- Axis-parallel ray whose origin `x`-coordinate sits exactly on the box
boundary `x = 0`. -/
def c1xRay : Ray :=
  Ray.new_with_time (Vec3.new 0 (1 / 2) 1) (Vec3.new 0 0 (-1)) 0

def c1xWin : Interval := Interval.new (XQ.fin (1 / 1000)) XQ.inf

/-- Claim C1, counterexample to the unrestricted statement: on this non-empty
collection the built BVH reports no hit (the `x` slab computes `0 * inf`,
i.e. IEEE NaN, and rejects), while the linear scan reports the hit at
`t = 1`. -/
theorem c1_counterexample :
    ((buildFuel 5 [c1xQuad.toPrim]).getD dummyTree).hit c1xRay c1xWin = none
    ∧ (HittableList.hit [c1xQuad.toPrim] c1xRay c1xWin).map
        (fun rcd => rcd.t) = some 1 := by
  constructor
  · decide
  · decide

/-- Witness quad 1: `[0,4]²` at `z = 0`; the witness ray hits it at
`t = 1` in the strict interior. -/
def c1Q1 : Quad :=
  Quad.new (Vec3.new 0 0 0) (Vec3.new 4 0 0) (Vec3.new 0 4 0) 1

/-- Witness quad 2: `[0,8]²` at `z = -2`; the witness ray hits it at
`t = 3` in the strict interior. -/
def c1Q2 : Quad :=
  Quad.new (Vec3.new 0 0 (-2)) (Vec3.new 8 0 0) (Vec3.new 0 8 0) 2

def c1Scene : List Prim := [c1Q1.toPrim, c1Q2.toPrim]

def c1Ray : Ray := Ray.new_with_time (Vec3.new 1 1 1) (Vec3.new 1 1 (-1)) 0

def c1Win : Interval := Interval.new (XQ.fin (1 / 1000)) XQ.inf

/-- Claim C1, witness: the amended theorem applied to a two-quad scene with a
diagonal ray. -/
theorem c1_witness :
    (((buildFuel 1 c1Scene).getD dummyTree).hit c1Ray c1Win).map
        (fun rcd => rcd.t)
      = (HittableList.hit c1Scene c1Ray c1Win).map (fun rcd => rcd.t)
    ∧ (HittableList.hit c1Scene c1Ray c1Win).map (fun rcd => rcd.t)
      = bestT c1Scene c1Ray c1Win :=
  c1_bvh_equals_scan 1 c1Scene ((buildFuel 1 c1Scene).getD dummyTree) rfl
    c1Ray (by refine ⟨?_, ?_, ?_⟩ <;> decide)
    (by
      intro p hp
      simp only [c1Scene, List.mem_cons, List.not_mem_nil, or_false] at hp
      rcases hp with rfl | rfl
      · exact quad_lawfulAt c1Q1 c1Ray
      · exact quad_lawfulAt c1Q2 c1Ray)
    (by
      intro p hp
      simp only [c1Scene, List.mem_cons, List.not_mem_nil, or_false] at hp
      rcases hp with rfl | rfl
      · exact quad_interiorHits c1Q1 c1Ray (by decide)
      · exact quad_interiorHits c1Q2 c1Ray (by decide))
    (by decide) c1Win (by decide)


/-! ## Integrator lemmas: depth exhaustion, one-step unfolding -/

/-- One-step unfolding of `ray_color` at positive depth. -/
theorem ray_color_succ (cam : Camera) (world : World) (lights : Lights)
    (r : Ray) (depth : ℤ) (g : Rng) (h : 0 < depth) :
    ray_color cam world lights r depth g =
      rayColorStep cam world lights
        (fun r2 g2 => ray_color cam world lights r2 (depth - 1) g2)
        r depth g := by
  unfold ray_color
  obtain ⟨k, hk⟩ : ∃ k, depth.toNat = k + 1 := ⟨(depth - 1).toNat, by omega⟩
  rw [hk]
  have hk2 : k = (depth - 1).toNat := by omega
  have e : rayColorFuel cam world lights (k + 1) r depth g
      = rayColorStep cam world lights
          (fun r2 g2 => rayColorFuel cam world lights k r2 (depth - 1) g2)
          r depth g := rfl
  rw [e, hk2]

/-- `ray_color` with the depth budget exhausted returns black without
consuming entropy. -/
theorem ray_color_depth_exhausted (cam : Camera) (world : World)
    (lights : Lights) (r : Ray) (depth : ℤ) (g : Rng) (h : depth ≤ 0) :
    ray_color cam world lights r depth g = (Vec3.new 0 0 0, g) := by
  unfold ray_color
  have h0 : depth.toNat = 0 := by omega
  rw [h0]
  rfl

/-- Loop invariants of the counted `for` loop. -/
theorem forLoop_invariant {α : Type} (P : α → Prop) (f : ℤ → α → α)
    (hf : ∀ i a, P a → P (f i a)) :
    ∀ (n : Nat) (start : ℤ) (a : α), P a → P (forLoop f start n a) := by
  intro n
  induction n with
  | zero => intro start a h; exact h
  | succ m ih =>
    intro start a h
    exact ih (start + 1) (f start a) (hf start a h)

theorem vec_zero_add_zero :
    Vec3.new 0 0 0 + Vec3.new 0 0 0 = Vec3.new 0 0 0 := by decide

theorem smul_black (s : ℚ) : s * Vec3.new 0 0 0 = Vec3.new 0 0 0 := by
  show Vec3.mk (s * 0) (s * 0) (s * 0) = Vec3.mk 0 0 0
  rw [mul_zero]

/-- With the depth budget exhausted every pixel sample is black. -/
theorem samplePixel_black (c : Camera) (data : CameraInternals)
    (world : World) (lights : Lights) (i j : ℤ) (g : Rng)
    (h : c.max_depth ≤ 0) :
    (samplePixel c data world lights i j g).1 = Vec3.new 0 0 0 := by
  unfold samplePixel
  refine forLoop_invariant (fun (st : Color × Rng) => st.1 = Vec3.new 0 0 0)
    _ ?_ _ _ _ rfl
  intro sj st hst
  refine forLoop_invariant (fun (st2 : Color × Rng) => st2.1 = Vec3.new 0 0 0)
    _ ?_ _ _ _ hst
  intro si st2 hst2
  show st2.1 + (ray_color c world lights _ c.max_depth _).1 = Vec3.new 0 0 0
  rw [ray_color_depth_exhausted c world lights _ _ _ h, hst2]
  exact vec_zero_add_zero

/-- With the depth budget exhausted every quantized pixel of a scanline is
the black triple. -/
theorem renderRow_black (c : Camera) (data : CameraInternals) (world : World)
    (lights : Lights) (j : ℤ) (g : Rng) (h : c.max_depth ≤ 0) :
    ∀ px ∈ renderRow c data world lights j g, px = (0, 0, 0) := by
  unfold renderRow
  have hw : write_color (Vec3.new 0 0 0) = (0, 0, 0) := by decide
  refine forLoop_invariant
    (fun (st : List (ℤ × ℤ × ℤ) × Rng) => ∀ px ∈ st.1, px = (0, 0, 0)) _ ?_
    _ _ _ ?_
  · intro i st hst px hpx
    rcases List.mem_append.mp hpx with hpx | hpx
    · exact hst px hpx
    · simp only [List.mem_singleton] at hpx
      rw [samplePixel_black c data world lights i j st.2 h, smul_black] at hpx
      rw [hpx, hw]
  · intro px hpx
    cases hpx


/-- Claim C8 (amended): with the depth budget exhausted (`max_depth <= 0`),
every per-sample radiance estimate is black `(0,0,0)` — not the background —
and every pixel of the rendered output is the black triple `(0,0,0)` after
the shared gamma correction and quantization.  (The original claim is refuted
by `c8_counterexample`: `ray_color` returns black, not the background, when
`depth <= 0`, so for a non-black background the rendered pixels differ from
the processed background color.) -/
theorem c8_depth_zero_black (c : Camera) (world : World) (lights : Lights)
    (h : c.max_depth ≤ 0) (rowRng : Nat → Rng) :
    (∀ (r : Ray) (g : Rng),
        ray_color c world lights r c.max_depth g = (Vec3.new 0 0 0, g))
    ∧ ∀ row ∈ Camera.render c world lights rowRng, ∀ px ∈ row,
        px = ((0 : ℤ), (0 : ℤ), (0 : ℤ)) := by
  constructor
  · intro r g
    exact ray_color_depth_exhausted c world lights r _ g h
  · intro row hrow px hpx
    unfold Camera.render at hrow
    simp only [List.mem_map] at hrow
    obtain ⟨j, _, hj⟩ := hrow
    rw [← hj] at hpx
    exact renderRow_black c c.initialize world lights (j : ℤ) (rowRng j) h
      px hpx

/-- Counterexample camera: a 1x1 image, one sample, `max_depth = 0`, and a
non-black (red) background. -/
def c8Cam : Camera :=
  { aspect_ratio := 1, image_width := 1, samples_per_pixel := 1,
    max_depth := 0, background := Vec3.new 1 0 0, vfov := 90,
    lookfrom := Vec3.new 0 0 0, lookat := Vec3.new 0 0 (-1),
    vup := Vec3.new 0 1 0, defocus_angle := 0, focus_dist := 10 }

/-- The single sphere of the counterexample scene. -/
def c8Sphere : Sphere := Sphere.new (Vec3.new 0 0 (-1)) (1 / 2) 0

/-- The single-sphere world, with a white Lambertian material attached to the
geometric hit record. -/
def c8World : World :=
  ⟨fun r w => (c8Sphere.hit r w).map (fun rc =>
    { p := rc.p, normal := rc.normal,
      mat := MaterialObject.Lambertian (Vec3.new 1 1 1), t := rc.t,
      u := rc.u, v := rc.v, front_face := rc.front_face })⟩

def c8Lights : Lights := ⟨fun _ _ => 0, fun _ g => (Vec3.new 1 0 0, g)⟩

def c8Rng : Nat → Rng := fun _ => ⟨fun _ => 1 / 2, 0⟩

/-- Claim C8, counterexample to the original statement: rendering the
single-sphere scene with `max_depth = 0` gives the black pixel `(0,0,0)`,
while the background color put through the same gamma correction and
quantization is `(255,0,0)`. -/
theorem c8_counterexample :
    Camera.render c8Cam c8World c8Lights c8Rng = [[((0 : ℤ), (0 : ℤ), (0 : ℤ))]]
    ∧ write_color c8Cam.background = ((255 : ℤ), (0 : ℤ), (0 : ℤ))
    ∧ ((0 : ℤ), (0 : ℤ), (0 : ℤ)) ≠ ((255 : ℤ), (0 : ℤ), (0 : ℤ)) := by
  refine ⟨?_, by decide, by decide⟩
  decide

/-- Claim C8, witness: the amended theorem applied to the counterexample
scene. -/
theorem c8_witness :
    (∀ (r : Ray) (g : Rng),
        ray_color c8Cam c8World c8Lights r c8Cam.max_depth g
          = (Vec3.new 0 0 0, g))
    ∧ ∀ row ∈ Camera.render c8Cam c8World c8Lights c8Rng, ∀ px ∈ row,
        px = ((0 : ℤ), (0 : ℤ), (0 : ℤ)) :=
  c8_depth_zero_black c8Cam c8World c8Lights (by decide) c8Rng


/-- First component of the short-circuit `||` draw structure of
`Dielectric::scatter`. -/
theorem ite_pair_fst {A B : Prop} [Decidable A] [Decidable B] {α β : Type}
    (x y : α) (g g2 : β) :
    (if A then (x, g) else (if B then (x, g2) else (y, g2))).1
      = if A ∨ B then x else y := by
  by_cases hA : A
  · simp [hA]
  · by_cases hB : B <;> simp [hA, hB]

/-- Claim C7: `Metal::scatter` and `Dielectric::scatter` always return `Some`
scatter record with `skip_pdf = true` and `pdf_ptr = None`, and the ray
direction `Dielectric` supplies is the mirror reflection exactly when total
internal reflection occurs (`ri * sin_theta > 1`) or the Schlick reflectance
exceeds the uniform draw, and the refracted direction otherwise. -/
theorem c7_specular_scatter (albedo : Color) (fuzz : ℚ)
    (refraction_index : ℚ) (r_in : Ray) (rec : HitRecordB) (g : Rng) :
    (∃ srec,
      ((MaterialObject.Metal albedo fuzz).scatter r_in rec g).1 = some srec
      ∧ srec.skip_pdf = true ∧ srec.pdf_ptr = none)
    ∧ (∃ srec,
      ((MaterialObject.Dielectric refraction_index).scatter r_in rec g).1
          = some srec
      ∧ srec.skip_pdf = true ∧ srec.pdf_ptr = none
      ∧ srec.skip_pdf_ray.direction =
          (let ri := if rec.front_face then 1 / refraction_index
                     else refraction_index
           let ud := unit_vector r_in.direction
           let cos_theta := min (-(dot ud rec.normal)) 1
           let sin_theta := qSqrt (1 - cos_theta * cos_theta)
           if 1 < ri * sin_theta
              ∨ (random_double g).1 < Dielectric.reflectance cos_theta ri
           then reflect ud rec.normal
           else refract ud rec.normal ri)) := by
  refine ⟨⟨_, rfl, rfl, rfl⟩, ⟨_, rfl, rfl, rfl, ?_⟩⟩
  exact ite_pair_fst _ _ _ _


theorem fclamp_mem (v lo hi : ℚ) (h : lo ≤ hi) :
    lo ≤ fclamp v lo hi ∧ fclamp v lo hi ≤ hi := by
  unfold fclamp
  split_ifs with h1 h2
  · exact ⟨le_refl lo, h⟩
  · exact ⟨h, le_refl hi⟩
  · exact ⟨le_of_not_lt h1, le_of_not_lt h2⟩

/-- Claim C5: once the bounce count `max_depth - depth` reaches 5, both
integrator branches compute the continuation probability as the throughput's
maximum color channel clamped to `[0.05, 0.95]`; when the uniform draw
exceeds it the call terminates with only the emitted term, and otherwise the
surviving scattered contribution is divided by it. -/
theorem c5_russian_roulette (cam : Camera) (world : World) (lights : Lights)
    (r : Ray) (depth : ℤ) (g g1 g2 : Rng) (rec : HitRecordB)
    (srec : ScatterRecord) (emitted : Color) (p d : ℚ)
    (hdep : 0 < depth)
    (hhit : world.hit r (Interval.new (XQ.fin (1 / 1000)) XQ.inf) = some rec)
    (hscat : rec.mat.scatter r rec g = (some srec, g1))
    (hb : 5 ≤ cam.max_depth - depth)
    (hem : emitted = rec.mat.emitted r rec rec.u rec.v rec.p)
    (hp : p = fclamp (max (max srec.attenuation.x srec.attenuation.y)
        srec.attenuation.z) (1 / 20) (19 / 20))
    (hd : random_double g1 = (d, g2)) :
    (1 / 20 ≤ p ∧ p ≤ 19 / 20)
    ∧ (srec.skip_pdf = true → p < d →
        ray_color cam world lights r depth g = (emitted, g2))
    ∧ (srec.skip_pdf = true → d ≤ p →
        ray_color cam world lights r depth g
          = (emitted + srec.attenuation
              * (ray_color cam world lights srec.skip_pdf_ray (depth - 1)
                  g2).1 / p,
             (ray_color cam world lights srec.skip_pdf_ray (depth - 1)
                g2).2))
    ∧ (∀ pdf_p, srec.skip_pdf = false → srec.pdf_ptr = some pdf_p → p < 1 →
        p < d → ray_color cam world lights r depth g = (emitted, g2))
    ∧ (∀ pdf_p, srec.skip_pdf = false → srec.pdf_ptr = some pdf_p → p < 1 →
        d ≤ p →
        0 < (PdfObject.MixturePdf (PdfObject.HittablePdf lights rec.p)
              pdf_p).value
            (Ray.new_with_time rec.p
              ((PdfObject.MixturePdf (PdfObject.HittablePdf lights rec.p)
                pdf_p).generate g2).1 r.time).direction →
        ray_color cam world lights r depth g
          = (emitted + srec.attenuation
              * rec.mat.scattering_pdf r rec
                  (Ray.new_with_time rec.p
                    ((PdfObject.MixturePdf
                        (PdfObject.HittablePdf lights rec.p) pdf_p).generate
                      g2).1 r.time)
              * (ray_color cam world lights
                  (Ray.new_with_time rec.p
                    ((PdfObject.MixturePdf
                        (PdfObject.HittablePdf lights rec.p) pdf_p).generate
                      g2).1 r.time)
                  (depth - 1)
                  ((PdfObject.MixturePdf
                      (PdfObject.HittablePdf lights rec.p) pdf_p).generate
                    g2).2).1
              / ((PdfObject.MixturePdf (PdfObject.HittablePdf lights rec.p)
                    pdf_p).value
                  (Ray.new_with_time rec.p
                    ((PdfObject.MixturePdf
                        (PdfObject.HittablePdf lights rec.p) pdf_p).generate
                      g2).1 r.time).direction * p),
             (ray_color cam world lights
                (Ray.new_with_time rec.p
                  ((PdfObject.MixturePdf
                      (PdfObject.HittablePdf lights rec.p) pdf_p).generate
                    g2).1 r.time)
                (depth - 1)
                ((PdfObject.MixturePdf
                    (PdfObject.HittablePdf lights rec.p) pdf_p).generate
                  g2).2).2)) := by
  subst hem hp
  refine ⟨fclamp_mem _ _ _ (by norm_num), ?_, ?_, ?_, ?_⟩
  · intro hskip hcmp
    rw [ray_color_succ cam world lights r depth g hdep]
    simp only [rayColorStep]
    rw [if_neg (by omega : ¬ depth ≤ 0)]
    simp only [hhit, hscat]
    rw [if_pos hskip, if_pos hb, hd]
    dsimp only
    rw [if_pos hcmp]
  · intro hskip hcmp
    rw [ray_color_succ cam world lights r depth g hdep]
    simp only [rayColorStep]
    rw [if_neg (by omega : ¬ depth ≤ 0)]
    simp only [hhit, hscat]
    rw [if_pos hskip, if_pos hb, hd]
    dsimp only
    rw [if_neg (not_lt.mpr hcmp)]
  · intro pdf_p hskip hpdf hp1 hcmp
    rw [ray_color_succ cam world lights r depth g hdep]
    simp only [rayColorStep]
    rw [if_neg (by omega : ¬ depth ≤ 0)]
    simp only [hhit, hscat]
    rw [if_neg (by rw [hskip]; exact Bool.false_ne_true)]
    simp only [hpdf]
    rw [if_pos hb, if_pos hp1, hd]
    dsimp only
    rw [if_pos (decide_eq_true hcmp)]
  · intro pdf_p hskip hpdf hp1 hcmp hpv
    rw [ray_color_succ cam world lights r depth g hdep]
    simp only [rayColorStep]
    rw [if_neg (by omega : ¬ depth ≤ 0)]
    simp only [hhit, hscat]
    rw [if_neg (by rw [hskip]; exact Bool.false_ne_true)]
    simp only [hpdf]
    rw [if_pos hb, if_pos hp1, hd]
    dsimp only
    rw [if_neg (fun h => absurd (of_decide_eq_true h) (not_lt.mpr hcmp))]
    rw [if_neg (not_le.mpr hpv)]


/-- Witness camera for the Russian-roulette claim: `max_depth = 6`, queried
at `depth = 1`, so the bounce count is exactly 5. -/
def c5Cam : Camera :=
  { aspect_ratio := 1, image_width := 1, samples_per_pixel := 1,
    max_depth := 6, background := Vec3.new 0 0 0, vfov := 90,
    lookfrom := Vec3.new 0 0 0, lookat := Vec3.new 0 0 (-1),
    vup := Vec3.new 0 1 0, defocus_angle := 0, focus_dist := 10 }

/-- Witness hit record: a half-grey `Metal` surface (`skip_pdf` branch),
whose throughput maximum channel is `1/2`. -/
def c5Rec : HitRecordB :=
  { p := Vec3.new 0 0 0, normal := Vec3.new 0 0 1,
    mat := MaterialObject.Metal (Vec3.new (1 / 2) (1 / 2) (1 / 2)) 0,
    t := 1, u := 0, v := 0, front_face := true }

def c5World : World := ⟨fun _ _ => some c5Rec⟩

def c5Lights : Lights := ⟨fun _ _ => 0, fun _ g => (Vec3.new 1 0 0, g)⟩

def c5Ray : Ray := Ray.new_with_time (Vec3.new 0 0 1) (Vec3.new 0 0 (-1)) 0

/-- Witness stream: the constant value `3/4` (the fuzz sample is accepted on
the first trial, and the roulette draw `3/4` exceeds `p = 1/2`). -/
def c5G : Rng := ⟨fun _ => 3 / 4, 0⟩

def c5DefaultSRec : ScatterRecord :=
  ⟨Vec3.new 0 0 0, none, false, Ray.new (Vec3.new 0 0 0) (Vec3.new 0 0 0)⟩

def c5SRec : ScatterRecord :=
  ((c5Rec.mat.scatter c5Ray c5Rec c5G).1).getD c5DefaultSRec

def c5G1 : Rng := (c5Rec.mat.scatter c5Ray c5Rec c5G).2

def c5Emitted : Color := c5Rec.mat.emitted c5Ray c5Rec c5Rec.u c5Rec.v c5Rec.p

def c5P : ℚ :=
  fclamp (max (max c5SRec.attenuation.x c5SRec.attenuation.y)
    c5SRec.attenuation.z) (1 / 20) (19 / 20)

def c5D : ℚ := (random_double c5G1).1

def c5G2 : Rng := (random_double c5G1).2

/-- Claim C5, witness: at bounce count 5 on the metal surface the draw `3/4`
exceeds the clamped continuation probability `1/2` and the call returns only
the emitted term; the probability lies in `[0.05, 0.95]`. -/
theorem c5_witness :
    ray_color c5Cam c5World c5Lights c5Ray 1 c5G = (c5Emitted, c5G2)
    ∧ (1 / 20 ≤ c5P ∧ c5P ≤ 19 / 20) := by
  have h := c5_russian_roulette c5Cam c5World c5Lights c5Ray 1 c5G c5G1 c5G2
    c5Rec c5SRec c5Emitted c5P c5D (by decide) rfl rfl (by decide) rfl rfl rfl
  exact ⟨h.2.1 rfl (by decide), h.1⟩


/-- Claim C6: in the importance-sampled branch, a nonpositive mixture density
at the sampled direction makes `ray_color` return only the emitted term, the
roulette factor is at least `0.05`, and the divisor `pdf_value * rr_prob` of
the weighting is positive whenever the density guard passes. -/
theorem c6_pdf_zero_guard (cam : Camera) (world : World) (lights : Lights)
    (r : Ray) (depth : ℤ) (g g1 g2 : Rng) (rec : HitRecordB)
    (srec : ScatterRecord) (pdf_p : PdfObject) (rr_prob : ℚ)
    (hdep : 0 < depth)
    (hhit : world.hit r (Interval.new (XQ.fin (1 / 1000)) XQ.inf) = some rec)
    (hscat : rec.mat.scatter r rec g = (some srec, g1))
    (hskip : srec.skip_pdf = false)
    (hpdf : srec.pdf_ptr = some pdf_p)
    (hrr : rr_prob = (if 5 ≤ cam.max_depth - depth then
        fclamp (max (max srec.attenuation.x srec.attenuation.y)
          srec.attenuation.z) (1 / 20) (19 / 20) else 1))
    (hg2 : g2 = (if rr_prob < 1 then (random_double g1).2 else g1))
    (hsurv : rr_prob < 1 → (random_double g1).1 ≤ rr_prob) :
    (1 / 20 ≤ rr_prob)
    ∧ ((PdfObject.MixturePdf (PdfObject.HittablePdf lights rec.p)
            pdf_p).value
          (Ray.new_with_time rec.p
            ((PdfObject.MixturePdf (PdfObject.HittablePdf lights rec.p)
                pdf_p).generate g2).1 r.time).direction ≤ 0 →
        ray_color cam world lights r depth g
          = (rec.mat.emitted r rec rec.u rec.v rec.p,
             ((PdfObject.MixturePdf (PdfObject.HittablePdf lights rec.p)
                pdf_p).generate g2).2))
    ∧ (0 < (PdfObject.MixturePdf (PdfObject.HittablePdf lights rec.p)
            pdf_p).value
          (Ray.new_with_time rec.p
            ((PdfObject.MixturePdf (PdfObject.HittablePdf lights rec.p)
                pdf_p).generate g2).1 r.time).direction →
        0 < (PdfObject.MixturePdf (PdfObject.HittablePdf lights rec.p)
            pdf_p).value
          (Ray.new_with_time rec.p
            ((PdfObject.MixturePdf (PdfObject.HittablePdf lights rec.p)
                pdf_p).generate g2).1 r.time).direction * rr_prob) := by
  have h120 : 1 / 20 ≤ rr_prob := by
    rw [hrr]
    split
    · exact (fclamp_mem _ _ _ (by norm_num)).1
    · norm_num
  refine ⟨h120, ?_, ?_⟩
  · intro hple
    subst hg2
    rw [ray_color_succ cam world lights r depth g hdep]
    simp only [rayColorStep]
    rw [if_neg (by omega : ¬ depth ≤ 0)]
    simp only [hhit, hscat]
    rw [if_neg (by rw [hskip]; exact Bool.false_ne_true)]
    simp only [hpdf]
    rw [← hrr]
    by_cases hlt : rr_prob < 1
    · rw [if_pos hlt]
      dsimp only
      rw [if_neg (fun h =>
        absurd (of_decide_eq_true h) (not_lt.mpr (hsurv hlt)))]
      rw [if_pos]
      · rw [if_pos hlt]
      · rw [if_pos hlt] at hple
        exact hple
    · rw [if_neg hlt]
      dsimp only
      rw [if_neg Bool.false_ne_true]
      rw [if_pos]
      · rw [if_neg hlt]
      · rw [if_neg hlt] at hple
        exact hple
  · intro hpv
    exact mul_pos hpv (lt_of_lt_of_le (by norm_num) h120)


/-- Witness camera for the density guard: one bounce, so no roulette draw. -/
def c6Cam : Camera :=
  { aspect_ratio := 1, image_width := 1, samples_per_pixel := 1,
    max_depth := 1, background := Vec3.new 0 0 0, vfov := 90,
    lookfrom := Vec3.new 0 0 0, lookat := Vec3.new 0 0 (-1),
    vup := Vec3.new 0 1 0, defocus_angle := 0, focus_dist := 10 }

/-- Witness hit record: a Lambertian surface (importance-sampled branch). -/
def c6Rec : HitRecordB :=
  { p := Vec3.new 0 0 0, normal := Vec3.new 0 0 1,
    mat := MaterialObject.Lambertian (Vec3.new (1 / 2) (1 / 2) (1 / 2)),
    t := 1, u := 0, v := 0, front_face := true }

def c6World : World := ⟨fun _ _ => some c6Rec⟩

/-- Witness lights: zero density everywhere, sampling the direction
`(0,0,-1)` below the surface — so the mixture density at the sampled
direction is `0`. -/
def c6Lights : Lights := ⟨fun _ _ => 0, fun _ g => (Vec3.new 0 0 (-1), g)⟩

def c6Ray : Ray := Ray.new_with_time (Vec3.new 0 0 1) (Vec3.new 0 0 (-1)) 0

/-- Witness stream: constant `1/4`, so the mixture coin picks the light
sampler. -/
def c6G : Rng := ⟨fun _ => 1 / 4, 0⟩

def c6SRec : ScatterRecord :=
  ((c6Rec.mat.scatter c6Ray c6Rec c6G).1).getD c5DefaultSRec

def c6PdfP : PdfObject := PdfObject.CosinePdf (Onb.new c6Rec.normal)

def c6Mixed : PdfObject :=
  PdfObject.MixturePdf (PdfObject.HittablePdf c6Lights c6Rec.p) c6PdfP

/-- Claim C6, witness: on the Lambertian surface the mixture samples the
below-surface light direction, both densities vanish, and the call returns
only the emitted term. -/
theorem c6_witness :
    (1 / 20 : ℚ) ≤ 1
    ∧ ray_color c6Cam c6World c6Lights c6Ray 1 c6G
        = (c6Rec.mat.emitted c6Ray c6Rec c6Rec.u c6Rec.v c6Rec.p,
           (c6Mixed.generate c6G).2) := by
  have h := c6_pdf_zero_guard c6Cam c6World c6Lights c6Ray 1 c6G c6G c6G
    c6Rec c6SRec c6PdfP 1 (by decide) rfl rfl rfl rfl (by decide) rfl
    (fun h1 => absurd h1 (lt_irrefl 1))
  exact ⟨h.1, h.2.1 (by decide)⟩


/-- Looking a key up in an association list built by tagging each element
with itself finds the tagged value, for any list containing the key. -/
theorem lookup_map_self {β : Type} (f : Nat → β) :
    ∀ (l : List Nat) (j : Nat), j ∈ l →
      (l.map (fun x => (x, f x))).lookup j = some (f j) := by
  intro l
  induction l with
  | nil => intro j h; cases h
  | cons a t ih =>
    intro j h
    by_cases hj : j = a
    · subst hj
      simp [List.lookup]
    · simp only [List.map, List.lookup]
      rw [show (j == a) = false from beq_eq_false_iff_ne.mpr hj]
      exact ih j (List.mem_cons.mp h |>.resolve_left hj)

/-- Any row schedule covering all row indices assembles to the sequential
index-order render. -/
theorem renderScheduled_eq_render (c : Camera) (world : World)
    (lights : Lights) (rowRng : Nat → Rng) (s : List Nat)
    (hs : ∀ j ∈ List.range c.initialize.image_height.toNat, j ∈ s) :
    Camera.renderScheduled c world lights rowRng s
      = Camera.render c world lights rowRng := by
  simp only [Camera.renderScheduled, Camera.render]
  apply List.map_congr_left
  intro j hj
  rw [lookup_map_self
    (fun x => renderRow c c.initialize world lights (x : ℤ) (rowRng x)) s j
    (hs j hj)]
  rfl

/-- Claim C9: with the random number sequences treated as explicit per-row
inputs, `Camera::render` is a deterministic function of the scene, lights,
camera configuration, and those sequences: any two executions — modelled as
arbitrary row work schedules covering all rows, as rayon's indexed parallel
`collect` produces — yield the identical pixel buffer, equal to the
sequential index-order render. -/
theorem c9_render_deterministic (c : Camera) (world : World)
    (lights : Lights) (rowRng : Nat → Rng) (s1 s2 : List Nat)
    (h1 : ∀ j ∈ List.range c.initialize.image_height.toNat, j ∈ s1)
    (h2 : ∀ j ∈ List.range c.initialize.image_height.toNat, j ∈ s2) :
    Camera.renderScheduled c world lights rowRng s1
        = Camera.renderScheduled c world lights rowRng s2
    ∧ Camera.renderScheduled c world lights rowRng s1
        = Camera.render c world lights rowRng := by
  have e1 := renderScheduled_eq_render c world lights rowRng s1 h1
  have e2 := renderScheduled_eq_render c world lights rowRng s2 h2
  exact ⟨e1.trans e2.symm, e1⟩

/-- Claim C9, witness: the single-row scene rendered under two different
schedules. -/
theorem c9_witness :
    Camera.renderScheduled c8Cam c8World c8Lights c8Rng [0]
        = Camera.renderScheduled c8Cam c8World c8Lights c8Rng [0, 0]
    ∧ Camera.renderScheduled c8Cam c8World c8Lights c8Rng [0]
        = Camera.render c8Cam c8World c8Lights c8Rng :=
  c9_render_deterministic c8Cam c8World c8Lights c8Rng [0] [0, 0]
    (by decide) (by decide)

end RayTrace
